import Mathlib

/-!
# A shallow embedding of the hydrogen-web outgoing send queue

This file models `SendQueue` (`src/matrix/room/sending/SendQueue.js` of the
repository, provided as `src/unnamed/part_000`) together with the parts of its
collaborators that it drives: the per-event `PendingEvent` record, the durable
pending-event store, and the transport.  `PendingEvent.js`, `SortedArray.js`
and `common.js` are not part of the provided sources, so the definitions that
come from them are modelled from the specification and marked as such; the
`SendQueue` logic itself is translated statement by statement from the source.

Conventions of the embedding:
* JavaScript objects mutated in place become values threaded through
  functions; the in-memory `SortedArray` of pending events becomes a
  `List PendingEvent` kept sorted by `queueIndex`.
* The IndexedDB store becomes a list of records keyed by
  `(roomId, queueIndex)`; a read-write transaction is a pure function from the
  store to the store, and `abort` is modelled by the caller keeping the
  original store value.
* Failure of awaited storage operations is injected through an explicit
  `failAt` operation counter; network results are an oracle
  `Transport : EventId → SendResult`.
* The send loop's detached async body is modelled as the function
  `runSendLoop`; the `log.set("queueIndex", ...)` call of the source is kept
  as the `visits` trace, and transmission attempts as the `attempts` trace.
-/

namespace SendQueueModel

/-- Modelled from the spec: ids are either client-generated transaction ids
(`makeTxnId` in the missing `common.js`, producing ids recognisable by
`isTxnId`) or server-assigned event ids; we model the two shapes as the two
constructors of one inductive type. -/
inductive EventId where
  | txn (n : Nat)
  | remote (n : Nat)
deriving DecidableEq, Repr

/-- Modelled from the spec: `isTxnId` (missing `common.js`) distinguishes a
client-generated transaction id from a server event id. -/
def isTxnId : EventId → Bool
  | .txn _ => true
  | .remote _ => false

/-- Modelled from the spec: the `status` field of a `PendingEvent`
(missing `PendingEvent.js`), "one of {Waiting, UploadingAttachments,
Encrypting, Sending, Error, Sent}". -/
inductive SendStatus where
  | Waiting
  | UploadingAttachments
  | Encrypting
  | Sending
  | SendError
  | Sent
deriving DecidableEq, Repr

/-- The event type of redactions (`REDACTION_TYPE` from the missing
`common.js`); only its inequality with ordinary event types matters. -/
def REDACTION_TYPE : String := "m.room.redaction"

/-- The durable record of one pending event, as created by
`SendQueue._createAndStoreEvent` (source lines 282-292): the fields passed to
`_createPendingEvent` plus the `remoteId` acquired later.  The store keys
records by `(roomId, queueIndex)`. -/
structure PendingEventData where
  roomId : String
  queueIndex : Nat
  eventType : String
  content : String
  relatedTxnId : Option EventId
  relatedEventId : Option EventId
  txnId : EventId
  remoteId : Option EventId
  needsEncryption : Bool
  needsUpload : Bool
deriving DecidableEq, Repr

/-- Modelled from the spec: the in-memory `PendingEvent` object (missing
`PendingEvent.js`) — its durable `data` plus the transient `status` and the
`aborted` flag set by `abort()`. -/
structure PendingEvent where
  data : PendingEventData
  status : SendStatus
  aborted : Bool
deriving DecidableEq, Repr

/-- Modelled from the spec: `needsUpload` "recomputed from current status —
once a step is done it no longer needs it"; the upload step clears the
persisted flag. -/
def PendingEvent.needsUpload (pe : PendingEvent) : Bool :=
  pe.data.needsUpload

/-- Modelled from the spec: `needsEncryption`, cleared once ciphertext is
stored. -/
def PendingEvent.needsEncryption (pe : PendingEvent) : Bool :=
  pe.data.needsEncryption

/-- Modelled from the spec: `needsSending` is "true once uploaded/encrypted
as required and no remote id yet assigned"; an aborted event is no longer
sent. -/
def PendingEvent.needsSending (pe : PendingEvent) : Bool :=
  pe.data.remoteId.isNone && !pe.aborted

/-- Modelled from the spec: `setWaiting()` of `PendingEvent`. -/
def PendingEvent.setWaiting (pe : PendingEvent) : PendingEvent :=
  { pe with status := .Waiting }

/-- Modelled from the spec: `setError(err)` parks the event in the Error
status. -/
def PendingEvent.setErrorStatus (pe : PendingEvent) : PendingEvent :=
  { pe with status := .SendError }

/-- Modelled from the spec: the upload step stores the uploaded content and
clears the `needsUpload` flag. -/
def PendingEvent.setUploaded (pe : PendingEvent) : PendingEvent :=
  { pe with data := { pe.data with needsUpload := false },
            status := .UploadingAttachments }

/-- Modelled from the spec: `setEncrypted(type, content)` stores the
ciphertext type/content and clears the `needsEncryption` flag. -/
def PendingEvent.setEncrypted (pe : PendingEvent) : PendingEvent :=
  { pe with data := { pe.data with needsEncryption := false },
            status := .Encrypting }

/-- Modelled from the spec: a successful `send(hsApi, log)` records the
server-assigned id and reaches the Sent status. -/
def PendingEvent.setSent (pe : PendingEvent) (rid : EventId) : PendingEvent :=
  { pe with data := { pe.data with remoteId := some rid }, status := .Sent }

/-- `setRelatedEventId` of `PendingEvent`, called by
`_resolveRemoteIdInPendingRelations` (source line 125). -/
def PendingEvent.setRelatedEventId (pe : PendingEvent) (rid : EventId) : PendingEvent :=
  { pe with data := { pe.data with relatedEventId := some rid } }

/-- The durable pending-event store: the set of records, keyed by
`(roomId, queueIndex)`. -/
abbrev Store := List PendingEventData

/-- Key lookup in the store. -/
def Store.get? (s : Store) (roomId : String) (queueIndex : Nat) : Option PendingEventData :=
  List.find? (fun r => r.roomId == roomId && r.queueIndex == queueIndex) s

/-- `txn.pendingEvents.exists(roomId, queueIndex)` of the store contract. -/
def Store.existsKey (s : Store) (roomId : String) (queueIndex : Nat) : Bool :=
  (s.get? roomId queueIndex).isSome

/-- `txn.pendingEvents.remove(roomId, queueIndex)` of the store contract. -/
def Store.removeKey (s : Store) (roomId : String) (queueIndex : Nat) : Store :=
  List.filter (fun r => !(r.roomId == roomId && r.queueIndex == queueIndex)) s

/-- `txn.pendingEvents.update(data)` of the store contract: an IndexedDB
`put`, replacing the record(s) under the key of `d`. -/
def Store.put (s : Store) (d : PendingEventData) : Store :=
  List.map (fun r => if r.roomId = d.roomId ∧ r.queueIndex = d.queueIndex then d else r) s

/-- `pendingEventsStore.add(data)`: fails when the key is already present. -/
def Store.add (s : Store) (d : PendingEventData) : Except Unit Store :=
  if s.existsKey d.roomId d.queueIndex then .error () else .ok (s ++ [d])

/-- Modelled from the spec: `getMaxQueueIndex(roomId)` of the store contract
returns the maximum queue index among the room's existing records; the `|| 0`
at source line 279 makes the empty case 0, which the fold's start value
captures. -/
def Store.getMaxQueueIndex (s : Store) (roomId : String) : Nat :=
  (List.filter (fun r => r.roomId == roomId) s).foldl (fun m r => max m r.queueIndex) 0

/-- JavaScript `array.findIndex(predicate)`: the index of the first element
satisfying the predicate, if any. -/
def findIndexFrom (p : PendingEvent → Bool) : List PendingEvent → Option Nat
  | [] => none
  | x :: xs => if p x then some 0 else (findIndexFrom p xs).map (· + 1)

/-- `this._pendingEvents.update(pendingEvent)` — in the source the object is
mutated in place and the `SortedArray` re-emits it; in the value model the
entry holding the event's `queueIndex` (the comparator key, source line 29) is
replaced by the new value. -/
def listUpdate (l : List PendingEvent) (pe : PendingEvent) : List PendingEvent :=
  List.map (fun x => if x.data.queueIndex = pe.data.queueIndex then pe else x) l

/-- Modelled from the spec: `SortedArray.set` (missing `SortedArray.js`)
inserts by the comparator `(a, b) => a.queueIndex - b.queueIndex`
(source line 29), replacing an entry the comparator ranks equal. -/
def sortedInsert (l : List PendingEvent) (pe : PendingEvent) : List PendingEvent :=
  match l with
  | [] => [pe]
  | x :: xs =>
    if pe.data.queueIndex < x.data.queueIndex then pe :: x :: xs
    else if pe.data.queueIndex = x.data.queueIndex then pe :: xs
    else x :: sortedInsert xs pe

/-- `SendQueue._tryUpdateEventWithTxn` (source lines 266-272): write only when
the record still exists "so we don't recreate it" after a racing remote echo
removed it. -/
def tryUpdateEventWithTxn (d : PendingEventData) (txn : Store) : Store :=
  if txn.existsKey d.roomId d.queueIndex then txn.put d else txn

/-- `SendQueue._tryUpdateEvent` (source lines 255-264): the same write in a
transaction of its own. -/
def tryUpdateEvent (d : PendingEventData) (store : Store) : Store :=
  tryUpdateEventWithTxn d store

/-- The filter of `_resolveRemoteIdInPendingRelations` (source lines 121-123):
pending events whose `relatedTxnId` equals the given (possibly absent) txn id
and whose `relatedEventId` is not already the remote id. -/
def relatedFilter (txnId : Option EventId) (rid : EventId) (x : PendingEvent) : Bool :=
  x.data.relatedTxnId == txnId && !(x.data.relatedEventId == some rid)

/-- The body of the `for` loop of `_resolveRemoteIdInPendingRelations`
(source lines 124-129), one related event after the other:
`setRelatedEventId` mutates the in-memory object, then
`_tryUpdateEventWithTxn` writes it; a storage failure (`failAt` reaching the
current operation counter) raises before the write, leaving the transaction
to be aborted by the caller. -/
def resolveRelationsGo (failAt : Option Nat) (opIdx : Nat) (rid : EventId) :
    List PendingEvent → List PendingEvent → Store → List PendingEvent × Store × Bool
  | [], pending, txn => (pending, txn, false)
  | relPE :: rest, pending, txn =>
    let relPE' := relPE.setRelatedEventId rid
    let pending' := listUpdate pending relPE'
    if failAt = some opIdx then (pending', txn, true)
    else resolveRelationsGo failAt (opIdx + 1) rid rest pending' (tryUpdateEventWithTxn relPE'.data txn)

/-- `SendQueue._resolveRemoteIdInPendingRelations` (source lines 120-131):
filter once over the live collection, then update every match inside the
caller's transaction.  The third component reports whether an injected
storage failure interrupted the pass. -/
def resolveRemoteIdInPendingRelations (failAt : Option Nat) (startIdx : Nat)
    (txnId : Option EventId) (rid : EventId) (pending : List PendingEvent) (txn : Store) :
    List PendingEvent × Store × Bool :=
  resolveRelationsGo failAt startIdx rid (pending.filter (relatedFilter txnId rid)) pending txn

/-- The transaction of `_sendEvent`'s `needsSending` branch (source lines
107-116): update the event now carrying its remote id, resolve all pending
relations, and on any failure abort the transaction — the store reverts to
its state before the transaction. -/
def persistSendTxn (failAt : Option Nat) (pe : PendingEvent) (rid : EventId)
    (pending : List PendingEvent) (store : Store) : List PendingEvent × Store × Bool :=
  if failAt = some 0 then (pending, store, true)
  else
    let s1 := tryUpdateEventWithTxn pe.data store
    let r := resolveRemoteIdInPendingRelations failAt 1 (some pe.data.txnId) rid pending s1
    if r.2.2 then (r.1, store, true) else (r.1, r.2.1, false)

/-- The typed outcomes of one transmission over the transport: success with a
server-assigned id, a `ConnectionError`, a `HomeServerError` carrying a
status code, or any other error. -/
inductive SendResult where
  | ok (rid : EventId)
  | connectionError
  | homeServerError (statusCode : Nat)
  | otherError
deriving DecidableEq, Repr

/-- The transport oracle: what `pendingEvent.send(hsApi, log)` would get back
for the event with the given transaction id. -/
abbrev Transport := EventId → SendResult

/-- The three control-flow-relevant error classes thrown out of `_sendEvent`,
as discriminated by `_sendLoop` (source lines 60-70). -/
inductive SendErr where
  | connection
  | homeServer (statusCode : Nat)
  | other
deriving DecidableEq, Repr

/-- The result of one `_sendEvent` call: the event object as last mutated,
the live collection and store as left behind, the error thrown (if any), and
whether a transmission was attempted. -/
structure SendOutcome where
  pe : PendingEvent
  pending : List PendingEvent
  store : Store
  err : Option SendErr
  attempted : Bool
deriving DecidableEq, Repr

/-- The attachment-upload step of `_sendEvent` (source lines 89-92) as it
acts on the event object. -/
def uploadStage (pe : PendingEvent) : PendingEvent :=
  if pe.needsUpload then pe.setUploaded else pe

/-- The encryption step of `_sendEvent` (source lines 93-99) as it acts on
the event object. -/
def encryptStage (pe : PendingEvent) : PendingEvent :=
  if pe.needsEncryption then pe.setEncrypted else pe

/-- `SendQueue._sendEvent` (source lines 88-118): upload, encrypt, then — if
a remote id is still needed — transmit and persist the remote id together
with the relation resolutions in one transaction. -/
def sendEvent (transport : Transport) (pe : PendingEvent)
    (pending : List PendingEvent) (store : Store) : SendOutcome :=
  let pe1 := uploadStage pe
  let store1 := if pe.needsUpload then tryUpdateEvent pe.setUploaded.data store else store
  let pe2 := encryptStage pe1
  let store2 := if pe1.needsEncryption then tryUpdateEvent pe1.setEncrypted.data store1 else store1
  let pending2 := listUpdate pending pe2
  if pe2.needsSending then
    let peS := { pe2 with status := .Sending }
    let pendingS := listUpdate pending2 peS
    match transport peS.data.txnId with
    | .ok rid =>
      let peOk := peS.setSent rid
      let pendingOk := listUpdate pendingS peOk
      let r := persistSendTxn none peOk rid pendingOk store2
      { pe := peOk, pending := r.1, store := r.2.1,
        err := if r.2.2 then some .other else none, attempted := true }
    | .connectionError =>
      { pe := peS, pending := pendingS, store := store2,
        err := some .connection, attempted := true }
    | .homeServerError c =>
      { pe := peS, pending := pendingS, store := store2,
        err := some (.homeServer c), attempted := true }
    | .otherError =>
      { pe := peS, pending := pendingS, store := store2,
        err := some .other, attempted := true }
  else
    { pe := pe2, pending := pending2, store := store2, err := none, attempted := false }

/-- `SendQueue._removeEvent` (source lines 155-168), reached through
`pendingEvent.abort()`: when the event is still in the collection, remove its
durable record in a transaction of its own and drop it from the in-memory
collection.  Position is located by the comparator key, mirroring the
source's identity `indexOf`. -/
def removeEvent (pending : List PendingEvent) (store : Store) (pe : PendingEvent) :
    List PendingEvent × Store :=
  match findIndexFrom (fun x => x.data.queueIndex == pe.data.queueIndex) pending with
  | some i => (pending.eraseIdx i, store.removeKey pe.data.roomId pe.data.queueIndex)
  | none => (pending, store)

/-- The loop state of `_sendLoop`'s detached body: the live collection, the
store, the offline flag, the trace of visited queue indexes
(`log.set("queueIndex", ...)`, source line 56) and the trace of queue indexes
for which a transmission was attempted. -/
structure LoopState where
  pending : List PendingEvent
  store : Store
  offline : Bool
  visits : List Nat
  attempts : List Nat
deriving DecidableEq, Repr

/-- The `try`/`catch` around `_sendEvent` inside `_sendLoop` (source lines
55-79): a `ConnectionError` marks the queue offline and puts the event back
into Waiting; a `HomeServerError` with status 400, 403 or 404 aborts the
event (removing it from store and collection); every other error parks the
event in the Error status. -/
def sendLoopStep (transport : Transport) (st : LoopState) (pe : PendingEvent) : LoopState :=
  let o := sendEvent transport pe st.pending st.store
  let visits := st.visits ++ [pe.data.queueIndex]
  let attempts := if o.attempted then st.attempts ++ [pe.data.queueIndex] else st.attempts
  match o.err with
  | none =>
    { pending := o.pending, store := o.store, offline := st.offline, visits, attempts }
  | some .connection =>
    let peW := o.pe.setWaiting
    { pending := listUpdate o.pending peW, store := o.store, offline := true, visits, attempts }
  | some (.homeServer c) =>
    if c = 400 ∨ c = 403 ∨ c = 404 then
      let r := removeEvent o.pending o.store o.pe
      { pending := r.1, store := r.2, offline := st.offline, visits, attempts }
    else
      { pending := listUpdate o.pending o.pe.setErrorStatus, store := o.store,
        offline := st.offline, visits, attempts }
  | some .other =>
    { pending := listUpdate o.pending o.pe.setErrorStatus, store := o.store,
      offline := st.offline, visits, attempts }

/-- The iteration of `for (const pendingEvent of this._pendingEvents)`
(source line 54): a JavaScript array iterator holds an index into the live
array, so after a removal the following element shifts into the current slot.
Fuel bounds the number of iterations; the collection never grows during the
loop, so the initial length suffices. -/
def sendLoopAux (transport : Transport) : Nat → Nat → LoopState → LoopState
  | 0, _, st => st
  | fuel + 1, idx, st =>
    match st.pending[idx]? with
    | none => st
    | some pe => sendLoopAux transport fuel (idx + 1) (sendLoopStep transport st pe)

/-- One complete run of the detached body of `_sendLoop` (source lines
50-86). -/
def runSendLoop (transport : Transport) (pending : List PendingEvent)
    (store : Store) (offline : Bool) : LoopState :=
  sendLoopAux transport pending.length 0
    { pending, store, offline, visits := [], attempts := [] }

/-- The per-room queue state held by a `SendQueue` instance (constructor,
source lines 24-34), together with the durable store and a counter feeding
the modelled `makeTxnId`. -/
structure QState where
  roomId : String
  store : Store
  pending : List PendingEvent
  isSending : Bool
  offline : Bool
  roomEncryption : Bool
  nextTxnId : Nat
deriving DecidableEq, Repr

/-- `SendQueue._createAndStoreEvent` (source lines 274-300): allocate
`queueIndex = getMaxQueueIndex(room) + 1`, build the pending event with a
fresh txn id, `needsEncryption` only for non-redactions in encrypted rooms,
and add the record; a thrown storage error aborts the transaction. -/
def createAndStoreEvent (q : QState) (eventType content : String)
    (relatedTxnId relatedEventId : Option EventId) (hasAttachments : Bool)
    (failTxn : Bool) : Except Unit (PendingEvent × Store) :=
  if failTxn then .error ()
  else
    let maxQueueIndex := q.store.getMaxQueueIndex q.roomId
    let queueIndex := maxQueueIndex + 1
    let needsEncryption := eventType ≠ REDACTION_TYPE ∧ q.roomEncryption
    let pe : PendingEvent :=
      { data := { roomId := q.roomId, queueIndex, eventType, content,
                  relatedTxnId, relatedEventId,
                  txnId := .txn q.nextTxnId, remoteId := none,
                  needsEncryption := decide needsEncryption,
                  needsUpload := hasAttachments },
        status := .Waiting, aborted := false }
    match q.store.add pe.data with
    | .error _ => .error ()
    | .ok store' => .ok (pe, store')

/-- `SendQueue._enqueueEvent` (source lines 201-212): persist first, then add
to the in-memory sorted collection, then start the send loop when none is
running and the queue is not offline.  A storage failure propagates and the
queue state is untouched.  The second component is the new event (if any),
the third whether a loop was started. -/
def enqueueEventCore (q : QState) (eventType content : String)
    (relatedTxnId relatedEventId : Option EventId) (hasAttachments : Bool)
    (failTxn : Bool) : QState × Option PendingEvent × Bool :=
  match createAndStoreEvent q eventType content relatedTxnId relatedEventId hasAttachments failTxn with
  | .error _ => (q, none, false)
  | .ok (pe, store') =>
    let started := !q.isSending && !q.offline
    ({ q with store := store', pending := sortedInsert q.pending pe,
              nextTxnId := q.nextTxnId + 1,
              isSending := q.isSending || started },
     some pe, started)

/-- `SendQueue.enqueueRedaction` (source lines 214-249).  For a local txn id:
a target not yet sending and without remote id is aborted and nothing is
enqueued; a target past that point contributes its remote id; an unknown
target is a silent no-op.  For an event id: a matching pending event
contributes its txn id; then the redaction is enqueued as a normal event. -/
def enqueueRedaction (q : QState) (eventIdOrTxnId : EventId) (reason : String)
    (failTxn : Bool) : QState × Option PendingEvent × Bool :=
  if isTxnId eventIdOrTxnId then
    let txnId := eventIdOrTxnId
    match q.pending.find? (fun pe => pe.data.txnId == txnId) with
    | some pe =>
      if pe.data.remoteId = none ∧ pe.status ≠ .Sending then
        let r := removeEvent q.pending q.store pe
        ({ q with pending := r.1, store := r.2 }, none, false)
      else
        enqueueEventCore q REDACTION_TYPE reason (some txnId) pe.data.remoteId false failTxn
    | none => (q, none, false)
  else
    let relatedEventId := some eventIdOrTxnId
    let relatedTxnId :=
      (q.pending.find? (fun pe => pe.data.remoteId == relatedEventId)).map (·.data.txnId)
    enqueueEventCore q REDACTION_TYPE reason relatedTxnId relatedEventId false failTxn

/-- `SendQueue.resumeSending` (source lines 180-194): clear the offline flag;
when there are pending events and no loop is running, start one.  The second
component tells whether a loop was started. -/
def resumeSending (q : QState) : QState × Bool :=
  let q := { q with offline := false }
  if q.pending.length ≠ 0 ∧ !q.isSending then
    ({ q with isSending := true }, true)
  else (q, false)

/-- A server-confirmed event handed to `removeRemoteEchos`: its event id and
the `unsigned.transaction_id` it may carry. -/
structure EchoEvent where
  eventId : EventId
  txnId : Option EventId
deriving DecidableEq, Repr

/-- The match of one echo against the live collection (source lines 136-142):
by `txnId` when the echo carries one, by `remoteId` otherwise. -/
def echoMatchIdx (pending : List PendingEvent) (ev : EchoEvent) : Option Nat :=
  match ev.txnId with
  | some t => findIndexFrom (fun pe => pe.data.txnId == t) pending
  | none => findIndexFrom (fun pe => pe.data.remoteId == some ev.eventId) pending

/-- One iteration of `removeRemoteEchos`'s loop (source lines 135-151):
remove the matched record inside the caller's transaction, collect the
pending event, and run the relation-resolution pass in the same
transaction.  The in-memory collection is only touched by the resolution
pass — the matched event itself stays in it. -/
def removeRemoteEchosStep (st : List PendingEvent × Store × List PendingEvent)
    (ev : EchoEvent) : List PendingEvent × Store × List PendingEvent :=
  let (pending, store, removed) := st
  match echoMatchIdx pending ev with
  | some idx =>
    match pending[idx]? with
    | some pendingEvent =>
      let store' := store.removeKey pendingEvent.data.roomId pendingEvent.data.queueIndex
      let r := resolveRemoteIdInPendingRelations none 0 ev.txnId ev.eventId pending store'
      (r.1, r.2.1, removed ++ [pendingEvent])
    | none => (pending, store, removed)
  | none => (pending, store, removed)

/-- `SendQueue.removeRemoteEchos` (source lines 133-153): fold the per-echo
step over the confirmed events, all inside the caller-supplied
transaction. -/
def removeRemoteEchos (events : List EchoEvent) (pending : List PendingEvent)
    (txn : Store) : List PendingEvent × Store × List PendingEvent :=
  events.foldl removeRemoteEchosStep (pending, txn, [])

/-- `SendQueue.emitRemovals` (source lines 170-178): drop each previously
returned pending event from the in-memory collection (located by the
comparator key, mirroring the identity `indexOf`). -/
def emitRemovals (pending : List PendingEvent) (removed : List PendingEvent) :
    List PendingEvent :=
  removed.foldl
    (fun p pe =>
      match findIndexFrom (fun x => x.data.queueIndex == pe.data.queueIndex) p with
      | some i => p.eraseIdx i
      | none => p)
    pending

/-- The `SendQueue` constructor's recovery path (source lines 24-30 and the
spec's lifecycle): rebuild the in-memory sorted collection from the room's
durable records; recovered events start in Waiting. -/
def loadQueue (store : Store) (roomId : String) : List PendingEvent :=
  ((store.filter (fun r => r.roomId == roomId)).map
      (fun d => ({ data := d, status := .Waiting, aborted := false } : PendingEvent))).foldl
    sortedInsert []

/-! ## Store lemmas -/

theorem get?_nil (roomId : String) (qi : Nat) : Store.get? [] roomId qi = none := rfl

theorem key_beq (r : PendingEventData) (roomId : String) (qi : Nat) :
    (r.roomId == roomId && r.queueIndex == qi) = decide (r.roomId = roomId ∧ r.queueIndex = qi) := by
  by_cases h1 : r.roomId = roomId <;> by_cases h2 : r.queueIndex = qi <;> simp [h1, h2]

theorem get?_cons (r : PendingEventData) (s : Store) (roomId : String) (qi : Nat) :
    Store.get? (r :: s) roomId qi =
      if r.roomId = roomId ∧ r.queueIndex = qi then some r else Store.get? s roomId qi := by
  by_cases h : r.roomId = roomId ∧ r.queueIndex = qi
  · rw [if_pos h]
    exact List.find?_cons_of_pos _ (by rw [key_beq]; exact decide_eq_true h)
  · rw [if_neg h]
    exact List.find?_cons_of_neg _ (by rw [key_beq]; simp [h])

theorem put_cons (r : PendingEventData) (s : Store) (d : PendingEventData) :
    Store.put (r :: s) d =
      (if r.roomId = d.roomId ∧ r.queueIndex = d.queueIndex then d else r) :: Store.put s d := by
  simp [Store.put]

theorem removeKey_cons (r : PendingEventData) (s : Store) (roomId : String) (qi : Nat) :
    Store.removeKey (r :: s) roomId qi =
      if r.roomId = roomId ∧ r.queueIndex = qi then Store.removeKey s roomId qi
      else r :: Store.removeKey s roomId qi := by
  simp only [Store.removeKey, List.filter_cons, key_beq]
  by_cases h : r.roomId = roomId ∧ r.queueIndex = qi <;> simp [h]

theorem get?_put_self (s : Store) (d : PendingEventData)
    (h : Store.existsKey s d.roomId d.queueIndex = true) :
    Store.get? (Store.put s d) d.roomId d.queueIndex = some d := by
  induction s with
  | nil => simp [Store.existsKey, get?_nil] at h
  | cons r s ih =>
    rw [put_cons, get?_cons]
    by_cases hr : r.roomId = d.roomId ∧ r.queueIndex = d.queueIndex
    · simp [hr]
    · rw [if_neg hr, if_neg hr]
      apply ih
      simp only [Store.existsKey, get?_cons, if_neg hr] at h
      exact h

theorem get?_put_other (s : Store) (d : PendingEventData) (roomId : String) (qi : Nat)
    (h : ¬(d.roomId = roomId ∧ d.queueIndex = qi)) :
    Store.get? (Store.put s d) roomId qi = Store.get? s roomId qi := by
  induction s with
  | nil => rfl
  | cons r s ih =>
    rw [put_cons, get?_cons, get?_cons]
    by_cases hr : r.roomId = d.roomId ∧ r.queueIndex = d.queueIndex
    · rw [if_pos hr]
      have : ¬(d.roomId = roomId ∧ d.queueIndex = qi) := h
      rw [if_neg this, if_neg (by rw [hr.1, hr.2]; exact this), ih]
    · rw [if_neg hr, ih]

theorem existsKey_put_self (s : Store) (d : PendingEventData) :
    Store.existsKey (Store.put s d) d.roomId d.queueIndex =
      Store.existsKey s d.roomId d.queueIndex := by
  simp only [Store.existsKey]
  induction s with
  | nil => rfl
  | cons r s ih =>
    rw [put_cons]
    by_cases hr : r.roomId = d.roomId ∧ r.queueIndex = d.queueIndex
    · rw [if_pos hr, get?_cons, if_pos ⟨rfl, rfl⟩, get?_cons, if_pos hr]
      rfl
    · rw [if_neg hr, get?_cons, if_neg hr, get?_cons, if_neg hr]
      exact ih

theorem existsKey_put (s : Store) (d : PendingEventData) (roomId : String) (qi : Nat) :
    Store.existsKey (Store.put s d) roomId qi = Store.existsKey s roomId qi := by
  by_cases h : d.roomId = roomId ∧ d.queueIndex = qi
  · obtain ⟨h1, h2⟩ := h
    subst h1
    subst h2
    exact existsKey_put_self s d
  · simp only [Store.existsKey, get?_put_other s d roomId qi h]

theorem get?_removeKey_self (s : Store) (roomId : String) (qi : Nat) :
    Store.get? (Store.removeKey s roomId qi) roomId qi = none := by
  induction s with
  | nil => rfl
  | cons r s ih =>
    rw [removeKey_cons]
    by_cases hr : r.roomId = roomId ∧ r.queueIndex = qi
    · rw [if_pos hr]; exact ih
    · rw [if_neg hr, get?_cons, if_neg hr]; exact ih

theorem get?_removeKey_other (s : Store) (roomId : String) (qi : Nat)
    (roomId' : String) (qi' : Nat) (h : ¬(roomId = roomId' ∧ qi = qi')) :
    Store.get? (Store.removeKey s roomId qi) roomId' qi' = Store.get? s roomId' qi' := by
  induction s with
  | nil => rfl
  | cons r s ih =>
    rw [removeKey_cons, get?_cons]
    by_cases hr : r.roomId = roomId ∧ r.queueIndex = qi
    · rw [if_pos hr, ih, if_neg (by
        intro hc
        exact h ⟨hr.1 ▸ hc.1, hr.2 ▸ hc.2⟩)]
    · rw [if_neg hr, get?_cons, ih]

/-- `tryUpdateEventWithTxn` never changes which keys exist. -/
theorem existsKey_tryUpdate (d : PendingEventData) (txn : Store) (roomId : String) (qi : Nat) :
    Store.existsKey (tryUpdateEventWithTxn d txn) roomId qi = Store.existsKey txn roomId qi := by
  unfold tryUpdateEventWithTxn
  by_cases h : Store.existsKey txn d.roomId d.queueIndex = true
  · rw [if_pos h, existsKey_put]
  · rw [if_neg h]

theorem get?_tryUpdate_other (d : PendingEventData) (txn : Store) (roomId : String) (qi : Nat)
    (h : ¬(d.roomId = roomId ∧ d.queueIndex = qi)) :
    Store.get? (tryUpdateEventWithTxn d txn) roomId qi = Store.get? txn roomId qi := by
  unfold tryUpdateEventWithTxn
  by_cases hex : Store.existsKey txn d.roomId d.queueIndex = true
  · rw [if_pos hex, get?_put_other _ _ _ _ h]
  · rw [if_neg hex]

theorem get?_tryUpdate_self (d : PendingEventData) (txn : Store)
    (h : Store.existsKey txn d.roomId d.queueIndex = true) :
    Store.get? (tryUpdateEventWithTxn d txn) d.roomId d.queueIndex = some d := by
  unfold tryUpdateEventWithTxn
  rw [if_pos h, get?_put_self _ _ h]

theorem foldl_max_init (l : List PendingEventData) (a : Nat) :
    a ≤ l.foldl (fun m x => max m x.queueIndex) a := by
  induction l generalizing a with
  | nil => exact Nat.le_refl a
  | cons x xs ih =>
    simp only [List.foldl_cons]
    exact le_trans (Nat.le_max_left a x.queueIndex) (ih (max a x.queueIndex))

theorem foldl_max_mem (l : List PendingEventData) (r : PendingEventData)
    (hmem : r ∈ l) (a : Nat) :
    r.queueIndex ≤ l.foldl (fun m x => max m x.queueIndex) a := by
  induction l generalizing a with
  | nil => cases hmem
  | cons x xs ih =>
    simp only [List.foldl_cons]
    rcases List.mem_cons.mp hmem with hx | hx
    · subst hx
      exact le_trans (Nat.le_max_right a r.queueIndex) (foldl_max_init xs _)
    · exact ih hx _

/-- Every record of the room bounds from below the allocated maximum. -/
theorem le_getMaxQueueIndex (s : Store) (roomId : String) (r : PendingEventData)
    (hmem : r ∈ s) (hroom : r.roomId = roomId) :
    r.queueIndex ≤ Store.getMaxQueueIndex s roomId := by
  unfold Store.getMaxQueueIndex
  have hmem' : r ∈ s.filter (fun x => x.roomId == roomId) := by
    simp only [List.mem_filter]
    exact ⟨hmem, by simp [hroom]⟩
  exact foldl_max_mem _ r hmem' 0

theorem get?_append_new (s : Store) (d : PendingEventData)
    (h : Store.existsKey s d.roomId d.queueIndex = false) :
    Store.get? (s ++ [d]) d.roomId d.queueIndex = some d := by
  induction s with
  | nil => simp [Store.get?, List.find?]
  | cons r s ih =>
    rw [List.cons_append, get?_cons]
    by_cases hr : r.roomId = d.roomId ∧ r.queueIndex = d.queueIndex
    · exfalso
      simp only [Store.existsKey, get?_cons, if_pos hr, Option.isSome_some] at h
      cases h
    · rw [if_neg hr]
      apply ih
      simp only [Store.existsKey, get?_cons, if_neg hr] at h
      exact h

theorem get?_append_old (s : Store) (d : PendingEventData) (roomId : String) (qi : Nat)
    (h : ¬(d.roomId = roomId ∧ d.queueIndex = qi)) :
    Store.get? (s ++ [d]) roomId qi = Store.get? s roomId qi := by
  induction s with
  | nil =>
    simp only [List.nil_append, get?_cons, if_neg h, get?_nil]
  | cons r s ih =>
    rw [List.cons_append, get?_cons, get?_cons]
    by_cases hr : r.roomId = roomId ∧ r.queueIndex = qi
    · rw [if_pos hr, if_pos hr]
    · rw [if_neg hr, if_neg hr, ih]

/-! ## List helper lemmas -/

theorem mem_sortedInsert_self (l : List PendingEvent) (pe : PendingEvent) :
    pe ∈ sortedInsert l pe := by
  induction l with
  | nil => exact List.mem_singleton.mpr rfl
  | cons x xs ih =>
    unfold sortedInsert
    by_cases h1 : pe.data.queueIndex < x.data.queueIndex
    · rw [if_pos h1]; exact List.mem_cons_self _ _
    · rw [if_neg h1]
      by_cases h2 : pe.data.queueIndex = x.data.queueIndex
      · rw [if_pos h2]; exact List.mem_cons_self _ _
      · rw [if_neg h2]; exact List.mem_cons_of_mem _ ih

theorem mem_of_mem_sortedInsert (l : List PendingEvent) (pe x : PendingEvent)
    (h : x ∈ sortedInsert l pe) : x = pe ∨ x ∈ l := by
  induction l with
  | nil => rcases List.mem_singleton.mp h with h; exact Or.inl h
  | cons y ys ih =>
    unfold sortedInsert at h
    by_cases h1 : pe.data.queueIndex < y.data.queueIndex
    · rw [if_pos h1] at h
      rcases List.mem_cons.mp h with h | h
      · exact Or.inl h
      · exact Or.inr h
    · rw [if_neg h1] at h
      by_cases h2 : pe.data.queueIndex = y.data.queueIndex
      · rw [if_pos h2] at h
        rcases List.mem_cons.mp h with h | h
        · exact Or.inl h
        · exact Or.inr (List.mem_cons_of_mem _ h)
      · rw [if_neg h2] at h
        rcases List.mem_cons.mp h with h | h
        · exact Or.inr (h ▸ List.mem_cons_self _ _)
        · rcases ih h with h | h
          · exact Or.inl h
          · exact Or.inr (List.mem_cons_of_mem _ h)

theorem map_queueIndex_listUpdate (l : List PendingEvent) (pe : PendingEvent) :
    (listUpdate l pe).map (fun x => x.data.queueIndex) = l.map (fun x => x.data.queueIndex) := by
  unfold listUpdate
  rw [List.map_map]
  apply List.map_congr_left
  intro x _
  simp only [Function.comp_apply]
  by_cases h : x.data.queueIndex = pe.data.queueIndex
  · rw [if_pos h, h]
  · rw [if_neg h]

theorem length_listUpdate (l : List PendingEvent) (pe : PendingEvent) :
    (listUpdate l pe).length = l.length := by
  unfold listUpdate
  exact List.length_map _ _

/-- An element equal in key to the update either is replaced or was another
element of the original list. -/
theorem mem_of_mem_listUpdate (l : List PendingEvent) (pe x : PendingEvent)
    (h : x ∈ listUpdate l pe) : x = pe ∨ x ∈ l := by
  unfold listUpdate at h
  rcases List.mem_map.mp h with ⟨y, _, hy⟩
  by_cases hc : y.data.queueIndex = pe.data.queueIndex
  · rw [if_pos hc] at hy
    exact Or.inl hy.symm
  · rw [if_neg hc] at hy
    exact Or.inr (hy ▸ ‹y ∈ l›)

/-- Keys present after a removal-by-found-index: everything but the key. -/
theorem eraseIdx_findIndex_qi (l : List PendingEvent) (k : Nat)
    (hdist : l.Pairwise (fun a b => a.data.queueIndex ≠ b.data.queueIndex))
    (i : Nat) (hi : findIndexFrom (fun x => x.data.queueIndex == k) l = some i) :
    ∀ x ∈ l.eraseIdx i, x.data.queueIndex ≠ k := by
  induction l generalizing i with
  | nil => cases hi
  | cons y ys ih =>
    unfold findIndexFrom at hi
    by_cases hy : (y.data.queueIndex == k) = true
    · rw [if_pos hy] at hi
      cases hi
      rw [List.eraseIdx_cons_zero]
      intro x hx
      have hk : y.data.queueIndex = k := by simpa using hy
      have := (List.pairwise_cons.mp hdist).1 x hx
      rw [hk] at this
      exact fun hc => this hc.symm
    · rw [if_neg hy] at hi
      rcases Option.map_eq_some'.mp hi with ⟨j, hj, rfl⟩
      rw [List.eraseIdx_cons_succ]
      intro x hx
      rcases List.mem_cons.mp hx with hx | hx
      · subst hx
        simpa using hy
      · exact ih (List.pairwise_cons.mp hdist).2 j hj x hx

theorem mem_of_mem_eraseIdx' (l : List PendingEvent) (i : Nat) (x : PendingEvent)
    (h : x ∈ l.eraseIdx i) : x ∈ l :=
  List.mem_of_mem_eraseIdx h

theorem findIndexFrom_some_get (p : PendingEvent → Bool) (l : List PendingEvent) (i : Nat)
    (h : findIndexFrom p l = some i) : ∃ x, l[i]? = some x ∧ p x = true := by
  induction l generalizing i with
  | nil => cases h
  | cons y ys ih =>
    unfold findIndexFrom at h
    by_cases hy : p y = true
    · rw [if_pos hy] at h
      cases h
      exact ⟨y, by simp, hy⟩
    · rw [if_neg hy] at h
      rcases Option.map_eq_some'.mp h with ⟨j, hj, rfl⟩
      rcases ih j hj with ⟨x, hx, hpx⟩
      exact ⟨x, by simpa using hx, hpx⟩

theorem findIndexFrom_isSome_of_mem (p : PendingEvent → Bool) (l : List PendingEvent)
    (x : PendingEvent) (hx : x ∈ l) (hp : p x = true) :
    (findIndexFrom p l).isSome = true := by
  induction l with
  | nil => cases hx
  | cons y ys ih =>
    unfold findIndexFrom
    by_cases hy : p y = true
    · rw [if_pos hy]; rfl
    · rw [if_neg hy]
      rcases List.mem_cons.mp hx with h | h
      · exact absurd (h ▸ hp) hy
      · rcases Option.isSome_iff_exists.mp (ih h) with ⟨j, hj⟩
        rw [hj]; rfl

/-- In a queue-index-distinct list, the queue index determines the element. -/
theorem pairwise_qi_inj (l : List PendingEvent)
    (hdist : l.Pairwise (fun a b => a.data.queueIndex ≠ b.data.queueIndex))
    (a b : PendingEvent) (ha : a ∈ l) (hb : b ∈ l)
    (hqi : a.data.queueIndex = b.data.queueIndex) : a = b := by
  induction l with
  | nil => cases ha
  | cons y ys ih =>
    rcases List.pairwise_cons.mp hdist with ⟨hy, hys⟩
    rcases List.mem_cons.mp ha with ha' | ha' <;> rcases List.mem_cons.mp hb with hb' | hb'
    · rw [ha', hb']
    · exact absurd (ha' ▸ hqi) (hy b hb')
    · exact absurd (hb' ▸ hqi.symm) (hy a ha')
    · exact ih hys ha' hb'

/-! ## Facts about event creation -/

/-- What a successful `_createAndStoreEvent` guarantees: the record was
appended under a key that was free, the queue index is the room's maximum
plus one, the txn id is fresh, and the event starts Waiting without remote
id. -/
theorem createAndStoreEvent_ok (q : QState) (eventType content : String)
    (relatedTxnId relatedEventId : Option EventId) (hasAttachments failTxn : Bool)
    (pe : PendingEvent) (store' : Store)
    (h : createAndStoreEvent q eventType content relatedTxnId relatedEventId hasAttachments failTxn
          = .ok (pe, store')) :
    store' = q.store ++ [pe.data] ∧
    Store.existsKey q.store pe.data.roomId pe.data.queueIndex = false ∧
    pe.data.roomId = q.roomId ∧
    pe.data.queueIndex = Store.getMaxQueueIndex q.store q.roomId + 1 ∧
    pe.data.txnId = .txn q.nextTxnId ∧
    pe.data.remoteId = none ∧
    pe.status = .Waiting := by
  unfold createAndStoreEvent at h
  by_cases hf : failTxn = true
  · rw [if_pos hf] at h; cases h
  · rw [if_neg hf] at h
    simp only [Store.add] at h
    by_cases hex : Store.existsKey q.store q.roomId (Store.getMaxQueueIndex q.store q.roomId + 1) = true
    · rw [if_pos hex] at h; cases h
    · rw [if_neg hex] at h
      cases h
      refine ⟨rfl, ?_, rfl, rfl, rfl, rfl, rfl⟩
      exact Bool.not_eq_true _ |>.mp hex

/-! ## Claim theorems: C10, C9 -/

/-- Concrete sample record used by witnesses. -/
def sampleData (qi t : Nat) (rel : Option EventId) (rid : Option EventId) : PendingEventData :=
  { roomId := "r1", queueIndex := qi, eventType := "m.room.message", content := "hello",
    relatedTxnId := rel, relatedEventId := none, txnId := .txn t, remoteId := rid,
    needsEncryption := false, needsUpload := false }

/-- Concrete sample pending event used by witnesses. -/
def samplePE (qi t : Nat) (rel : Option EventId := none) (rid : Option EventId := none) :
    PendingEvent :=
  { data := sampleData qi t rel rid, status := .Waiting, aborted := false }

/-- C10: a persistence update performed through `_tryUpdateEventWithTxn`
writes the durable record only if the `(roomId, queueIndex)` key still
exists; when the record was concurrently removed the store is left unchanged
and the record is never recreated, and a performed write touches no other
key. -/
theorem tryUpdate_only_if_exists (d : PendingEventData) (s : Store) :
    (Store.existsKey s d.roomId d.queueIndex = false → tryUpdateEventWithTxn d s = s) ∧
    (Store.existsKey s d.roomId d.queueIndex = true →
      Store.get? (tryUpdateEventWithTxn d s) d.roomId d.queueIndex = some d) ∧
    (∀ roomId qi, ¬(d.roomId = roomId ∧ d.queueIndex = qi) →
      Store.get? (tryUpdateEventWithTxn d s) roomId qi = Store.get? s roomId qi) := by
  refine ⟨fun h => ?_, get?_tryUpdate_self d s,
    fun roomId qi hne => get?_tryUpdate_other d s roomId qi hne⟩
  unfold tryUpdateEventWithTxn
  rw [if_neg (by simp [h])]

/-- Witness for C10 at a concrete removed record. -/
theorem tryUpdate_only_if_exists_witness :
    tryUpdateEventWithTxn (sampleData 1 0 none none) [] = [] :=
  (tryUpdate_only_if_exists (sampleData 1 0 none none) []).1 rfl

/-- C9: `_enqueueEvent` adds the new pending event to the in-memory ordered
collection only once the storage transaction has committed — any failure
leaves the queue exactly as it was — and a send loop is started by the
enqueue if and only if no loop is running and the queue is not offline. -/
theorem enqueue_persists_before_memory (q : QState) (eventType content : String)
    (relatedTxnId relatedEventId : Option EventId) (hasAttachments failTxn : Bool) :
    (∀ q' started,
      enqueueEventCore q eventType content relatedTxnId relatedEventId hasAttachments failTxn
        = (q', none, started) → q' = q ∧ started = false) ∧
    (failTxn = true →
      (enqueueEventCore q eventType content relatedTxnId relatedEventId hasAttachments failTxn).2.1
        = none) ∧
    (∀ q' pe started,
      enqueueEventCore q eventType content relatedTxnId relatedEventId hasAttachments failTxn
        = (q', some pe, started) →
      pe ∈ q'.pending ∧
      Store.get? q'.store pe.data.roomId pe.data.queueIndex = some pe.data ∧
      (started = true ↔ (q.isSending = false ∧ q.offline = false))) := by
  refine ⟨?_, ?_, ?_⟩
  · intro q' started hr
    unfold enqueueEventCore at hr
    cases hc : createAndStoreEvent q eventType content relatedTxnId relatedEventId hasAttachments failTxn with
    | error u => rw [hc] at hr; cases hr; exact ⟨rfl, rfl⟩
    | ok v => rw [hc] at hr; cases hr
  · intro hf
    unfold enqueueEventCore
    have hc : createAndStoreEvent q eventType content relatedTxnId relatedEventId hasAttachments failTxn
        = .error () := by
      unfold createAndStoreEvent
      rw [if_pos hf]
    rw [hc]
  · intro q' pe started hr
    unfold enqueueEventCore at hr
    cases hc : createAndStoreEvent q eventType content relatedTxnId relatedEventId hasAttachments failTxn with
    | error u => rw [hc] at hr; cases hr
    | ok v =>
      obtain ⟨pe0, store0⟩ := v
      rw [hc] at hr
      injection hr with hq' hrest
      injection hrest with hpe hstarted
      injection hpe with hpe
      cases hpe
      obtain ⟨hstore, hfree, -, -, -, -, -⟩ :=
        createAndStoreEvent_ok q eventType content relatedTxnId relatedEventId hasAttachments
          failTxn pe store0 hc
      refine ⟨?_, ?_, ?_⟩
      · rw [← hq']
        exact mem_sortedInsert_self q.pending pe
      · rw [← hq']
        simp only
        rw [hstore]
        exact get?_append_new q.store pe.data hfree
      · rw [← hstarted]
        constructor
        · intro h
          rcases Bool.and_eq_true .. ▸ h with ⟨h1, h2⟩
          exact ⟨Bool.not_eq_true' .. ▸ h1, Bool.not_eq_true' .. ▸ h2⟩
        · intro ⟨h1, h2⟩
          rw [h1, h2]
          rfl

/-- Witness for C9 at a concrete failing and succeeding enqueue. -/
theorem enqueue_persists_before_memory_witness :
    (enqueueEventCore
      { roomId := "r1", store := [], pending := [], isSending := false, offline := false,
        roomEncryption := false, nextTxnId := 0 }
      "m.room.message" "hello" none none false true).2.1 = none :=
  (enqueue_persists_before_memory _ "m.room.message" "hello" none none false true).2.1 rfl

/-! ## Lemmas about the relation-resolution pass -/

theorem resolveGo_none_noThrow (rid : EventId) (rel : List PendingEvent) :
    ∀ (pending : List PendingEvent) (txn : Store) (opIdx : Nat),
    (resolveRelationsGo none opIdx rid rel pending txn).2.2 = false := by
  induction rel with
  | nil => intro pending txn opIdx; rfl
  | cons x rest ih =>
    intro pending txn opIdx
    simp only [resolveRelationsGo]
    rw [if_neg (by simp)]
    exact ih _ _ _

theorem map_qi_resolveGo (failAt : Option Nat) (rid : EventId) (rel : List PendingEvent) :
    ∀ (pending : List PendingEvent) (txn : Store) (opIdx : Nat),
    (resolveRelationsGo failAt opIdx rid rel pending txn).1.map (fun x => x.data.queueIndex)
      = pending.map (fun x => x.data.queueIndex) := by
  induction rel with
  | nil => intro pending txn opIdx; rfl
  | cons x rest ih =>
    intro pending txn opIdx
    simp only [resolveRelationsGo]
    by_cases hf : failAt = some opIdx
    · rw [if_pos hf]
      exact map_queueIndex_listUpdate pending (x.setRelatedEventId rid)
    · rw [if_neg hf, ih]
      exact map_queueIndex_listUpdate pending (x.setRelatedEventId rid)

theorem existsKey_resolveGo_none (rid : EventId) (rel : List PendingEvent) :
    ∀ (pending : List PendingEvent) (txn : Store) (opIdx : Nat) (roomId : String) (qi : Nat),
    Store.existsKey (resolveRelationsGo none opIdx rid rel pending txn).2.1 roomId qi
      = Store.existsKey txn roomId qi := by
  induction rel with
  | nil => intro pending txn opIdx roomId qi; rfl
  | cons x rest ih =>
    intro pending txn opIdx roomId qi
    simp only [resolveRelationsGo]
    rw [if_neg (by simp), ih, existsKey_tryUpdate]

theorem resolveGo_none_get?_other (rid : EventId) (rel : List PendingEvent) :
    ∀ (pending : List PendingEvent) (txn : Store) (opIdx : Nat) (roomId : String) (qi : Nat),
    (∀ x ∈ rel, ¬(x.data.roomId = roomId ∧ x.data.queueIndex = qi)) →
    Store.get? (resolveRelationsGo none opIdx rid rel pending txn).2.1 roomId qi
      = Store.get? txn roomId qi := by
  induction rel with
  | nil => intro pending txn opIdx roomId qi _; rfl
  | cons x rest ih =>
    intro pending txn opIdx roomId qi h
    simp only [resolveRelationsGo]
    rw [if_neg (by simp)]
    rw [ih _ _ _ _ _ (fun z hz => h z (List.mem_cons_of_mem _ hz))]
    exact get?_tryUpdate_other _ _ _ _ (h x (List.mem_cons_self _ _))

theorem resolveGo_none_get?_mem (rid : EventId) (rel : List PendingEvent) :
    ∀ (pending : List PendingEvent) (txn : Store) (opIdx : Nat) (x : PendingEvent),
    rel.Pairwise (fun a b => ¬(a.data.roomId = b.data.roomId ∧ a.data.queueIndex = b.data.queueIndex)) →
    x ∈ rel →
    Store.existsKey txn x.data.roomId x.data.queueIndex = true →
    Store.get? (resolveRelationsGo none opIdx rid rel pending txn).2.1
        x.data.roomId x.data.queueIndex
      = some (x.setRelatedEventId rid).data := by
  induction rel with
  | nil => intro pending txn opIdx x _ hx _; cases hx
  | cons y rest ih =>
    intro pending txn opIdx x hdist hx hex
    simp only [resolveRelationsGo]
    rw [if_neg (by simp)]
    rcases List.mem_cons.mp hx with h | h
    · subst h
      rw [resolveGo_none_get?_other rid rest _ _ _ _ _ (fun z hz => by
        have := (List.pairwise_cons.mp hdist).1 z hz
        intro hc
        exact this ⟨hc.1.symm, hc.2.symm⟩)]
      exact get?_tryUpdate_self (x.setRelatedEventId rid).data txn hex
    · exact ih _ _ _ x (List.pairwise_cons.mp hdist).2 h
        (by rw [existsKey_tryUpdate]; exact hex)

/-! ## Claim theorem: C1 -/

/-- The committed shape of `_sendEvent`'s success transaction when no step
fails. -/
theorem persistSendTxn_none_eq (pe : PendingEvent) (rid : EventId)
    (pending : List PendingEvent) (store : Store) :
    persistSendTxn none pe rid pending store =
      ((resolveRelationsGo none 1 rid
          (pending.filter (relatedFilter (some pe.data.txnId) rid)) pending
          (tryUpdateEventWithTxn pe.data store)).1,
       (resolveRelationsGo none 1 rid
          (pending.filter (relatedFilter (some pe.data.txnId) rid)) pending
          (tryUpdateEventWithTxn pe.data store)).2.1,
       false) := by
  have h1 := resolveGo_none_noThrow rid
    (pending.filter (relatedFilter (some pe.data.txnId) rid)) pending
    (tryUpdateEventWithTxn pe.data store) 1
  simp only [persistSendTxn, resolveRemoteIdInPendingRelations]
  rw [if_neg (by simp)]
  rw [if_neg (by simp [h1])]

/-- C1: for a pending event whose transmission succeeded, the write of its
new `remoteId` and the `relatedEventId` resolution of every pending event
whose `relatedTxnId` equals its `txnId` form one transaction: if any step of
the transaction fails, the transaction is aborted and the durable store is
exactly what it was before, and when no step fails the committed store holds
the event's record (with its remote id) together with every dependent
record's resolved relation. -/
theorem sendTxn_atomic (failAt : Option Nat) (pe : PendingEvent) (rid : EventId)
    (pending : List PendingEvent) (store : Store)
    (hdist : pending.Pairwise (fun a b => a.data.queueIndex ≠ b.data.queueIndex))
    (hroom : ∀ x ∈ pending, x.data.roomId = pe.data.roomId)
    (hself : pe.data.relatedTxnId ≠ some pe.data.txnId)
    (hpe : pe ∈ pending) :
    ((persistSendTxn failAt pe rid pending store).2.2 = true →
      (persistSendTxn failAt pe rid pending store).2.1 = store) ∧
    (persistSendTxn none pe rid pending store).2.2 = false ∧
    (Store.existsKey store pe.data.roomId pe.data.queueIndex = true →
      Store.get? (persistSendTxn none pe rid pending store).2.1
          pe.data.roomId pe.data.queueIndex = some pe.data) ∧
    (∀ x ∈ pending, x.data.relatedTxnId = some pe.data.txnId →
      x.data.relatedEventId ≠ some rid →
      Store.existsKey store x.data.roomId x.data.queueIndex = true →
      Store.get? (persistSendTxn none pe rid pending store).2.1
          x.data.roomId x.data.queueIndex = some (x.setRelatedEventId rid).data) := by
  have hval := persistSendTxn_none_eq pe rid pending store
  refine ⟨?_, by rw [hval], ?_, ?_⟩
  · intro ht
    unfold persistSendTxn at ht ⊢
    by_cases h0 : failAt = some 0
    · rw [if_pos h0]
    · rw [if_neg h0] at ht ⊢
      by_cases h1 : (resolveRemoteIdInPendingRelations failAt 1 (some pe.data.txnId) rid pending
          (tryUpdateEventWithTxn pe.data store)).2.2 = true
      · rw [if_pos h1]
      · rw [if_neg h1] at ht
        exact absurd ht (by simp)
  · intro hex
    rw [hval]
    simp only
    rw [resolveGo_none_get?_other rid _ _ _ _ _ _ ?_]
    · exact get?_tryUpdate_self pe.data store hex
    · intro z hz hc
      have hzp := List.mem_filter.mp hz
      have hz_eq : z = pe := pairwise_qi_inj pending hdist z pe hzp.1 hpe hc.2
      subst hz_eq
      have := hzp.2
      simp only [relatedFilter, Bool.and_eq_true, beq_iff_eq] at this
      exact hself this.1
  · intro x hx hrel hne hex
    rw [hval]
    simp only
    have hxrel : x ∈ pending.filter (relatedFilter (some pe.data.txnId) rid) := by
      refine List.mem_filter.mpr ⟨hx, ?_⟩
      simp only [relatedFilter, Bool.and_eq_true, beq_iff_eq]
      refine ⟨hrel, ?_⟩
      simp [hne]
    have hdist_rel :
        (pending.filter (relatedFilter (some pe.data.txnId) rid)).Pairwise
          (fun a b => ¬(a.data.roomId = b.data.roomId ∧ a.data.queueIndex = b.data.queueIndex)) := by
      have hsub := List.filter_sublist (l := pending) (p := relatedFilter (some pe.data.txnId) rid)
      exact (hdist.sublist hsub).imp (fun h hc => h hc.2)
    exact resolveGo_none_get?_mem rid _ _ _ _ x hdist_rel hxrel
      (by rw [existsKey_tryUpdate]; exact hex)

/-- Witness for C1: a sent message and a dependent redaction, committed
together. -/
theorem sendTxn_atomic_witness :
    Store.get? (persistSendTxn none (samplePE 1 0 none (some (.remote 5))) (.remote 5)
        [samplePE 1 0 none (some (.remote 5)), samplePE 2 1 (some (.txn 0)) none]
        [(samplePE 1 0 none (some (.remote 5))).data, (samplePE 2 1 (some (.txn 0)) none).data]).2.1
      "r1" 2
    = some ((samplePE 2 1 (some (.txn 0)) none).setRelatedEventId (.remote 5)).data := by
  have h := sendTxn_atomic none (samplePE 1 0 none (some (.remote 5))) (.remote 5)
    [samplePE 1 0 none (some (.remote 5)), samplePE 2 1 (some (.txn 0)) none]
    [(samplePE 1 0 none (some (.remote 5))).data, (samplePE 2 1 (some (.txn 0)) none).data]
    (by decide) (by decide) (by decide) (by decide)
  exact h.2.2.2 (samplePE 2 1 (some (.txn 0)) none) (by decide) (by decide) (by decide) (by decide)

/-! ## Claim theorems: C6, C7 -/

/-- What the abort branch of `enqueueRedaction` computes when the target is
found by txn id, has no remote id and is not Sending. -/
theorem enqueueRedaction_abort_eq (q : QState) (t : Nat) (reason : String) (failTxn : Bool)
    (pe : PendingEvent)
    (hfind : q.pending.find? (fun x => x.data.txnId == EventId.txn t) = some pe)
    (hnorem : pe.data.remoteId = none) (hnosend : pe.status ≠ .Sending) :
    enqueueRedaction q (.txn t) reason failTxn =
      ({ q with pending := (removeEvent q.pending q.store pe).1,
                store := (removeEvent q.pending q.store pe).2 }, none, false) := by
  unfold enqueueRedaction
  rw [if_pos (show isTxnId (EventId.txn t) = true from rfl)]
  simp only [hfind]
  rw [if_pos ⟨hnorem, hnosend⟩]

/-- When the txn id matches no pending event, `enqueueRedaction` returns
without any change. -/
theorem enqueueRedaction_none_eq (q : QState) (t : Nat) (reason : String) (failTxn : Bool)
    (hfind : q.pending.find? (fun x => x.data.txnId == EventId.txn t) = none) :
    enqueueRedaction q (.txn t) reason failTxn = (q, none, false) := by
  unfold enqueueRedaction
  rw [if_pos (show isTxnId (EventId.txn t) = true from rfl)]
  simp only [hfind]

/-- The shape of `_removeEvent` when the event occurs in the collection. -/
theorem removeEvent_eq_of_mem (pending : List PendingEvent) (store : Store)
    (pe : PendingEvent) (hmem : pe ∈ pending) :
    ∃ i, findIndexFrom (fun x => x.data.queueIndex == pe.data.queueIndex) pending = some i ∧
      removeEvent pending store pe =
        (pending.eraseIdx i, store.removeKey pe.data.roomId pe.data.queueIndex) := by
  have hsome := findIndexFrom_isSome_of_mem
    (fun x => x.data.queueIndex == pe.data.queueIndex) pending pe hmem (by simp)
  rcases Option.isSome_iff_exists.mp hsome with ⟨i, hi⟩
  refine ⟨i, hi, ?_⟩
  unfold removeEvent
  rw [hi]

/-- C6: an `enqueueRedaction` by local txn id whose target has no remote id
and is not Sending aborts the target — it disappears from the in-memory
collection and from the durable store — and no redaction event is enqueued
or sent. -/
theorem redaction_aborts_unsent (q : QState) (t : Nat) (reason : String) (failTxn : Bool)
    (pe : PendingEvent)
    (hfind : q.pending.find? (fun x => x.data.txnId == EventId.txn t) = some pe)
    (hnorem : pe.data.remoteId = none) (hnosend : pe.status ≠ .Sending)
    (hdist : q.pending.Pairwise (fun a b => a.data.queueIndex ≠ b.data.queueIndex)) :
    (∀ x ∈ (enqueueRedaction q (.txn t) reason failTxn).1.pending,
      x ∈ q.pending ∧ x.data.queueIndex ≠ pe.data.queueIndex) ∧
    Store.get? (enqueueRedaction q (.txn t) reason failTxn).1.store
        pe.data.roomId pe.data.queueIndex = none ∧
    (∀ roomId qi, ¬(pe.data.roomId = roomId ∧ pe.data.queueIndex = qi) →
      Store.get? (enqueueRedaction q (.txn t) reason failTxn).1.store roomId qi
        = Store.get? q.store roomId qi) ∧
    (enqueueRedaction q (.txn t) reason failTxn).2.1 = none ∧
    (enqueueRedaction q (.txn t) reason failTxn).2.2 = false ∧
    (enqueueRedaction q (.txn t) reason failTxn).1.nextTxnId = q.nextTxnId := by
  rw [enqueueRedaction_abort_eq q t reason failTxn pe hfind hnorem hnosend]
  have hmem : pe ∈ q.pending := List.mem_of_find?_eq_some hfind
  rcases removeEvent_eq_of_mem q.pending q.store pe hmem with ⟨i, hi, hre⟩
  rw [hre]
  refine ⟨?_, ?_, ?_, rfl, rfl, rfl⟩
  · intro x hx
    exact ⟨mem_of_mem_eraseIdx' _ _ _ hx,
      eraseIdx_findIndex_qi q.pending pe.data.queueIndex hdist i hi x hx⟩
  · exact get?_removeKey_self q.store pe.data.roomId pe.data.queueIndex
  · intro roomId qi h
    exact get?_removeKey_other q.store pe.data.roomId pe.data.queueIndex roomId qi h

/-- Witness for C6: a Waiting event with txn id 0 is aborted by a redaction
that never enters the queue. -/
theorem redaction_aborts_unsent_witness :
    Store.get? (enqueueRedaction
        { roomId := "r1", store := [(samplePE 1 0).data], pending := [samplePE 1 0],
          isSending := false, offline := false, roomEncryption := false, nextTxnId := 1 }
        (.txn 0) "remove" false).1.store "r1" 1 = none := by
  have h := redaction_aborts_unsent
    { roomId := "r1", store := [(samplePE 1 0).data], pending := [samplePE 1 0],
      isSending := false, offline := false, roomEncryption := false, nextTxnId := 1 }
    0 "remove" false (samplePE 1 0) (by decide) (by decide) (by decide) (by decide)
  exact h.2.1

/-- C7: an `enqueueRedaction` by local txn id whose target is unknown is a
silent no-op, and redacting the same target twice has the effect of redacting
it once — the second call finds nothing and changes nothing. -/
theorem redaction_unknown_target_noop (q : QState) (t : Nat) (reason : String) (failTxn : Bool) :
    (q.pending.find? (fun x => x.data.txnId == EventId.txn t) = none →
      enqueueRedaction q (.txn t) reason failTxn = (q, none, false)) ∧
    (∀ pe, q.pending.find? (fun x => x.data.txnId == EventId.txn t) = some pe →
      pe.data.remoteId = none → pe.status ≠ .Sending →
      q.pending.Pairwise (fun a b => a.data.queueIndex ≠ b.data.queueIndex) →
      (∀ x ∈ q.pending, x.data.txnId = .txn t → x = pe) →
      enqueueRedaction (enqueueRedaction q (.txn t) reason failTxn).1 (.txn t) reason failTxn
        = ((enqueueRedaction q (.txn t) reason failTxn).1, none, false)) := by
  constructor
  · intro hfind
    exact enqueueRedaction_none_eq q t reason failTxn hfind
  · intro pe hfind hnorem hnosend hdist huniq
    have h1 := enqueueRedaction_abort_eq q t reason failTxn pe hfind hnorem hnosend
    have hmem : pe ∈ q.pending := List.mem_of_find?_eq_some hfind
    rcases removeEvent_eq_of_mem q.pending q.store pe hmem with ⟨i, hi, hre⟩
    apply enqueueRedaction_none_eq
    rw [h1, hre]
    simp only
    apply List.find?_eq_none.mpr
    intro x hx
    have hxi : x ∈ q.pending := mem_of_mem_eraseIdx' _ _ _ hx
    have hxqi := eraseIdx_findIndex_qi q.pending pe.data.queueIndex hdist i hi x hx
    simp only [beq_iff_eq]
    intro hc
    exact hxqi (congrArg (fun y => y.data.queueIndex) (huniq x hxi hc))

/-- The empty queue of room `r1`, used by witnesses. -/
def emptyQ : QState :=
  { roomId := "r1", store := [], pending := [], isSending := false, offline := false,
    roomEncryption := false, nextTxnId := 0 }

/-- Witness for C7: redacting an unknown txn id leaves the queue untouched. -/
theorem redaction_unknown_target_noop_witness :
    enqueueRedaction emptyQ (.txn 3) "gone" false = (emptyQ, none, false) :=
  (redaction_unknown_target_noop emptyQ 3 "gone" false).1 rfl

/-! ## Claim theorems: C8 -/

/-- `r1` after one ordinary enqueue. -/
def q8one : QState := (enqueueEventCore emptyQ "m.room.message" "one" none none false false).1

/-- `r1` after a second ordinary enqueue. -/
def q8two : QState := (enqueueEventCore q8one "m.room.message" "two" none none false false).1

/-- `r1` after the second event (txn id 1, queue index 2) was aborted through
a redaction while still Waiting. -/
def q8aborted : QState := (enqueueRedaction q8two (.txn 1) "remove" false).1

/-- Counterexample to C8: the second event of the room receives queue index
2; after it is removed, the next enqueued event (a different event, txn id 2)
receives queue index 2 again — a queue index is reassigned to a later
pending event of the room. -/
theorem queueIndex_reuse_counterexample :
    ((enqueueEventCore q8one "m.room.message" "two" none none false false).2.1.map
        (fun pe => (pe.data.queueIndex, pe.data.txnId))) = some (2, .txn 1) ∧
    ((enqueueEventCore q8aborted "m.room.message" "three" none none false false).2.1.map
        (fun pe => (pe.data.queueIndex, pe.data.txnId))) = some (2, .txn 2) := by
  exact ⟨rfl, rfl⟩

/-- C8 (amended): an enqueue allocates a queue index strictly greater than
every index still present in the room's durable store — so an index is never
reassigned while its event remains — and removing a pending event never
renumbers any other record; only after the event holding the room's maximum
index is removed may its index be allocated again. -/
theorem queueIndex_fresh_for_live (q : QState) (eventType content : String)
    (relatedTxnId relatedEventId : Option EventId) (hasAttachments failTxn : Bool) :
    (∀ q' pe started,
      enqueueEventCore q eventType content relatedTxnId relatedEventId hasAttachments failTxn
        = (q', some pe, started) →
      ∀ r ∈ q.store, r.roomId = q.roomId → r.queueIndex < pe.data.queueIndex) ∧
    (∀ (pending : List PendingEvent) (store : Store) (pe : PendingEvent)
        (roomId : String) (qi : Nat),
      ¬(pe.data.roomId = roomId ∧ pe.data.queueIndex = qi) →
      Store.get? (removeEvent pending store pe).2 roomId qi = Store.get? store roomId qi) := by
  constructor
  · intro q' pe started hr r hrmem hrroom
    unfold enqueueEventCore at hr
    cases hc : createAndStoreEvent q eventType content relatedTxnId relatedEventId hasAttachments failTxn with
    | error u => rw [hc] at hr; cases hr
    | ok v =>
      obtain ⟨pe0, store0⟩ := v
      rw [hc] at hr
      injection hr with hq' hrest
      injection hrest with hpe hstarted
      injection hpe with hpe
      cases hpe
      obtain ⟨-, -, -, hqi, -, -, -⟩ :=
        createAndStoreEvent_ok q eventType content relatedTxnId relatedEventId hasAttachments
          failTxn pe store0 hc
      rw [hqi]
      exact Nat.lt_succ_of_le (le_getMaxQueueIndex q.store q.roomId r hrmem hrroom)
  · intro pending store pe roomId qi h
    unfold removeEvent
    cases hfi : findIndexFrom (fun x => x.data.queueIndex == pe.data.queueIndex) pending with
    | none => rfl
    | some i =>
      exact get?_removeKey_other store pe.data.roomId pe.data.queueIndex roomId qi h

/-- Witness for C8's amended theorem: removing the first event does not
disturb the record of the second. -/
theorem queueIndex_fresh_for_live_witness :
    Store.get? (removeEvent [samplePE 1 0, samplePE 2 1]
        [(samplePE 1 0).data, (samplePE 2 1).data] (samplePE 1 0)).2 "r1" 2
      = Store.get? [(samplePE 1 0).data, (samplePE 2 1).data] "r1" 2 :=
  (queueIndex_fresh_for_live emptyQ "m.room.message" "x" none none false false).2
    [samplePE 1 0, samplePE 2 1] [(samplePE 1 0).data, (samplePE 2 1).data]
    (samplePE 1 0) "r1" 2 (by decide)

/-! ## Claim theorems: C5 -/

theorem get?_eq_none_of_existsKey_false (s : Store) (roomId : String) (qi : Nat)
    (h : Store.existsKey s roomId qi = false) : Store.get? s roomId qi = none := by
  unfold Store.existsKey at h
  cases hg : Store.get? s roomId qi with
  | none => rfl
  | some v => rw [hg] at h; cases h

theorem map_qi_resolve (failAt : Option Nat) (startIdx : Nat) (txnId : Option EventId)
    (rid : EventId) (pending : List PendingEvent) (txn : Store) :
    (resolveRemoteIdInPendingRelations failAt startIdx txnId rid pending txn).1.map
        (fun x => x.data.queueIndex)
      = pending.map (fun x => x.data.queueIndex) := by
  unfold resolveRemoteIdInPendingRelations
  exact map_qi_resolveGo failAt rid _ pending txn startIdx

theorem existsKey_resolve_none (startIdx : Nat) (txnId : Option EventId) (rid : EventId)
    (pending : List PendingEvent) (txn : Store) (roomId : String) (qi : Nat) :
    Store.existsKey (resolveRemoteIdInPendingRelations none startIdx txnId rid pending txn).2.1
        roomId qi
      = Store.existsKey txn roomId qi := by
  unfold resolveRemoteIdInPendingRelations
  exact existsKey_resolveGo_none rid _ pending txn startIdx roomId qi

theorem map_qi_removeRemoteEchosStep (st : List PendingEvent × Store × List PendingEvent)
    (ev : EchoEvent) :
    (removeRemoteEchosStep st ev).1.map (fun x => x.data.queueIndex)
      = st.1.map (fun x => x.data.queueIndex) := by
  obtain ⟨pending, store, removed⟩ := st
  unfold removeRemoteEchosStep
  cases h1 : echoMatchIdx pending ev with
  | none => simp only [h1]
  | some idx =>
    simp only [h1]
    cases h2 : pending[idx]? with
    | none => simp only [h2]
    | some pe =>
      simp only [h2]
      exact map_qi_resolve none 0 ev.txnId ev.eventId pending _

theorem map_qi_removeRemoteEchos_fold (events : List EchoEvent) :
    ∀ (st : List PendingEvent × Store × List PendingEvent),
    (events.foldl removeRemoteEchosStep st).1.map (fun x => x.data.queueIndex)
      = st.1.map (fun x => x.data.queueIndex) := by
  induction events with
  | nil => intro st; rfl
  | cons ev rest ih =>
    intro st
    rw [List.foldl_cons, ih, map_qi_removeRemoteEchosStep]

/-- Shape of `removeRemoteEchos` on a single matched echo. -/
theorem removeRemoteEchos_single_eq (ev : EchoEvent) (pending : List PendingEvent)
    (txn : Store) (pe : PendingEvent) (idx : Nat)
    (hmatch : echoMatchIdx pending ev = some idx)
    (hget : pending[idx]? = some pe) :
    removeRemoteEchos [ev] pending txn =
      ((resolveRemoteIdInPendingRelations none 0 ev.txnId ev.eventId pending
          (txn.removeKey pe.data.roomId pe.data.queueIndex)).1,
       (resolveRemoteIdInPendingRelations none 0 ev.txnId ev.eventId pending
          (txn.removeKey pe.data.roomId pe.data.queueIndex)).2.1,
       [pe]) := by
  unfold removeRemoteEchos
  rw [List.foldl_cons, List.foldl_nil]
  unfold removeRemoteEchosStep
  simp only [hmatch, hget, List.nil_append]

theorem pairwise_key_filter (pending : List PendingEvent) (p : PendingEvent → Bool)
    (hdist : pending.Pairwise (fun a b => a.data.queueIndex ≠ b.data.queueIndex)) :
    (pending.filter p).Pairwise
      (fun a b => ¬(a.data.roomId = b.data.roomId ∧ a.data.queueIndex = b.data.queueIndex)) :=
  (hdist.sublist (List.filter_sublist pending)).imp (fun h hc => h hc.2)

theorem pairwise_qi_of_map_eq (l l' : List PendingEvent)
    (h : l'.map (fun x => x.data.queueIndex) = l.map (fun x => x.data.queueIndex))
    (hdist : l.Pairwise (fun a b => a.data.queueIndex ≠ b.data.queueIndex)) :
    l'.Pairwise (fun a b => a.data.queueIndex ≠ b.data.queueIndex) := by
  have h1 : (l.map (fun x => x.data.queueIndex)).Pairwise (· ≠ ·) :=
    List.pairwise_map.mpr hdist
  rw [← h] at h1
  exact List.pairwise_map.mp h1

/-- C5 (amended): `removeRemoteEchos` matches each confirmed event by txn id
when it carries one (else by remote id), removes the matched record from the
durable store within the caller-supplied transaction and performs the
relation-resolution pass in that same transaction — but it does not shrink
the in-memory ordered collection; the matched events are returned and only a
later `emitRemovals` call drops them from the collection. -/
theorem removeRemoteEchos_txn_semantics :
    (∀ (events : List EchoEvent) (pending : List PendingEvent) (txn : Store),
      (removeRemoteEchos events pending txn).1.map (fun x => x.data.queueIndex)
        = pending.map (fun x => x.data.queueIndex)) ∧
    (∀ (ev : EchoEvent) (pending : List PendingEvent) (txn : Store)
        (pe : PendingEvent) (idx : Nat),
      echoMatchIdx pending ev = some idx →
      pending[idx]? = some pe →
      pending.Pairwise (fun a b => a.data.queueIndex ≠ b.data.queueIndex) →
      (∀ x ∈ pending, x.data.roomId = pe.data.roomId) →
      (removeRemoteEchos [ev] pending txn).2.2 = [pe] ∧
      Store.get? (removeRemoteEchos [ev] pending txn).2.1
          pe.data.roomId pe.data.queueIndex = none ∧
      (∀ x ∈ pending, x.data.relatedTxnId = ev.txnId →
        x.data.relatedEventId ≠ some ev.eventId →
        x.data.queueIndex ≠ pe.data.queueIndex →
        Store.existsKey txn x.data.roomId x.data.queueIndex = true →
        Store.get? (removeRemoteEchos [ev] pending txn).2.1
            x.data.roomId x.data.queueIndex
          = some (x.setRelatedEventId ev.eventId).data) ∧
      (∀ x ∈ emitRemovals (removeRemoteEchos [ev] pending txn).1
          (removeRemoteEchos [ev] pending txn).2.2,
        x.data.queueIndex ≠ pe.data.queueIndex)) := by
  constructor
  · intro events pending txn
    exact map_qi_removeRemoteEchos_fold events (pending, txn, [])
  · intro ev pending txn pe idx hmatch hget hdist hroom
    have heq := removeRemoteEchos_single_eq ev pending txn pe idx hmatch hget
    have hpe_mem : pe ∈ pending := by
      have := List.getElem?_eq_some_iff.mp hget
      rcases this with ⟨hlt, hg⟩
      exact hg ▸ List.getElem_mem _
    refine ⟨by rw [heq], ?_, ?_, ?_⟩
    · rw [heq]
      apply get?_eq_none_of_existsKey_false
      rw [existsKey_resolve_none]
      unfold Store.existsKey
      rw [get?_removeKey_self]
      rfl
    · intro x hx hrel hne hqi hex
      rw [heq]
      simp only
      unfold resolveRemoteIdInPendingRelations
      have hxrel : x ∈ pending.filter (relatedFilter ev.txnId ev.eventId) := by
        refine List.mem_filter.mpr ⟨hx, ?_⟩
        simp only [relatedFilter, Bool.and_eq_true, beq_iff_eq]
        exact ⟨hrel, by simp [hne]⟩
      apply resolveGo_none_get?_mem ev.eventId _ pending _ 0 x
        (pairwise_key_filter pending _ hdist) hxrel
      unfold Store.existsKey
      rw [get?_removeKey_other txn pe.data.roomId pe.data.queueIndex
        x.data.roomId x.data.queueIndex (fun hc => hqi hc.2.symm)]
      exact hex
    · intro x hx
      have hmap : (removeRemoteEchos [ev] pending txn).1.map (fun y => y.data.queueIndex)
          = pending.map (fun y => y.data.queueIndex) :=
        map_qi_removeRemoteEchos_fold [ev] (pending, txn, [])
      have hdistF := pairwise_qi_of_map_eq pending _ hmap hdist
      have hqi_mem : pe.data.queueIndex ∈
          (removeRemoteEchos [ev] pending txn).1.map (fun y => y.data.queueIndex) := by
        rw [hmap]
        exact List.mem_map.mpr ⟨pe, hpe_mem, rfl⟩
      rcases List.mem_map.mp hqi_mem with ⟨y, hy_mem, hy_qi⟩
      have hremoved : (removeRemoteEchos [ev] pending txn).2.2 = [pe] := by rw [heq]
      rw [hremoved] at hx
      unfold emitRemovals at hx
      rw [List.foldl_cons, List.foldl_nil] at hx
      have hsome := findIndexFrom_isSome_of_mem
        (fun z => z.data.queueIndex == pe.data.queueIndex)
        (removeRemoteEchos [ev] pending txn).1 y hy_mem (by simp [hy_qi])
      rcases Option.isSome_iff_exists.mp hsome with ⟨i, hi⟩
      rw [hi] at hx
      exact eraseIdx_findIndex_qi (removeRemoteEchos [ev] pending txn).1
        pe.data.queueIndex hdistF i hi x hx

/-- Counterexample to C5 as stated: a matched pending event's durable record
is removed inside the caller's transaction but the event is still in the
in-memory ordered collection when `removeRemoteEchos` returns. -/
theorem removeRemoteEchos_keeps_memory_counterexample :
    (removeRemoteEchos [{ eventId := .remote 9, txnId := some (.txn 0) }]
        [samplePE 1 0] [(samplePE 1 0).data]).1 = [samplePE 1 0] ∧
    Store.get? (removeRemoteEchos [{ eventId := .remote 9, txnId := some (.txn 0) }]
        [samplePE 1 0] [(samplePE 1 0).data]).2.1 "r1" 1 = none ∧
    (removeRemoteEchos [{ eventId := .remote 9, txnId := some (.txn 0) }]
        [samplePE 1 0] [(samplePE 1 0).data]).2.2 = [samplePE 1 0] := by
  exact ⟨rfl, rfl, rfl⟩

/-- Witness for C5's amended theorem: one echo resolves the dependent
redaction's relation inside the caller's transaction. -/
theorem removeRemoteEchos_txn_semantics_witness :
    Store.get? (removeRemoteEchos [{ eventId := .remote 9, txnId := some (.txn 0) }]
        [samplePE 1 0, samplePE 2 1 (some (.txn 0))]
        [(samplePE 1 0).data, (samplePE 2 1 (some (.txn 0))).data]).2.1 "r1" 2
      = some ((samplePE 2 1 (some (.txn 0))).setRelatedEventId (.remote 9)).data := by
  have h := removeRemoteEchos_txn_semantics.2
    { eventId := .remote 9, txnId := some (.txn 0) }
    [samplePE 1 0, samplePE 2 1 (some (.txn 0))]
    [(samplePE 1 0).data, (samplePE 2 1 (some (.txn 0))).data]
    (samplePE 1 0) 0 (by decide) (by decide) (by decide) (by decide)
  exact h.2.2.1 (samplePE 2 1 (some (.txn 0))) (by decide) (by decide) (by decide)
    (by decide) (by decide)

/-! ## Loop machinery -/

theorem map_update_id (l : List PendingEvent) (pe' : PendingEvent)
    (h : ∀ x ∈ l, x.data.queueIndex ≠ pe'.data.queueIndex) :
    l.map (fun x => if x.data.queueIndex = pe'.data.queueIndex then pe' else x) = l := by
  induction l with
  | nil => rfl
  | cons y ys ih =>
    rw [List.map_cons, if_neg (h y (List.mem_cons_self _ _)),
      ih (fun x hx => h x (List.mem_cons_of_mem _ hx))]

theorem listUpdate_listUpdate (l : List PendingEvent) (a b : PendingEvent)
    (h : a.data.queueIndex = b.data.queueIndex) :
    listUpdate (listUpdate l a) b = listUpdate l b := by
  unfold listUpdate
  rw [List.map_map]
  apply List.map_congr_left
  intro x _
  simp only [Function.comp_apply]
  by_cases hx : x.data.queueIndex = a.data.queueIndex
  · rw [if_pos hx, if_pos h, if_pos (hx.trans h)]
  · rw [if_neg hx, if_neg (fun hc => hx (hc.trans h.symm))]

theorem listUpdate_middle (A B : List PendingEvent) (pe pe' : PendingEvent)
    (hqi : pe'.data.queueIndex = pe.data.queueIndex)
    (hA : ∀ x ∈ A, x.data.queueIndex ≠ pe.data.queueIndex)
    (hB : ∀ x ∈ B, x.data.queueIndex ≠ pe.data.queueIndex) :
    listUpdate (A ++ pe :: B) pe' = A ++ pe' :: B := by
  unfold listUpdate
  rw [List.map_append, List.map_cons, if_pos hqi.symm,
    map_update_id A pe' (fun x hx => hqi ▸ hA x hx),
    map_update_id B pe' (fun x hx => hqi ▸ hB x hx)]

theorem getElem?_append_length (A B : List PendingEvent) (x : PendingEvent) :
    (A ++ x :: B)[A.length]? = some x := by
  induction A with
  | nil => simp
  | cons a A ih => simpa using ih

/-- A pending event with distinct queue indexes decomposed around one
position. -/
theorem pairwise_append_middle (A B : List PendingEvent) (pe : PendingEvent)
    (hdist : (A ++ pe :: B).Pairwise (fun a b => a.data.queueIndex ≠ b.data.queueIndex)) :
    (∀ x ∈ A, x.data.queueIndex ≠ pe.data.queueIndex) ∧
    (∀ x ∈ B, x.data.queueIndex ≠ pe.data.queueIndex) := by
  rcases List.pairwise_append.mp hdist with ⟨-, hTail, hCross⟩
  exact ⟨fun x hx => hCross x hx pe (List.mem_cons_self _ _),
    fun x hx => fun hc => ((List.pairwise_cons.mp hTail).1 x hx) hc.symm⟩

/-- `_sendEvent` on a plain event (nothing to upload or encrypt) that still
needs sending: the outcome is decided by the transport. -/
theorem sendEvent_plain (transport : Transport) (pe : PendingEvent)
    (pending : List PendingEvent) (store : Store)
    (h1 : pe.data.needsUpload = false) (h2 : pe.data.needsEncryption = false)
    (h3 : pe.data.remoteId = none) (h4 : pe.aborted = false) :
    sendEvent transport pe pending store =
      (match transport pe.data.txnId with
      | .ok rid =>
        { pe := ({ pe with status := .Sending } : PendingEvent).setSent rid,
          pending := (persistSendTxn none (({ pe with status := .Sending } : PendingEvent).setSent rid) rid
            (listUpdate (listUpdate (listUpdate pending pe) { pe with status := .Sending })
              (({ pe with status := .Sending } : PendingEvent).setSent rid)) store).1,
          store := (persistSendTxn none (({ pe with status := .Sending } : PendingEvent).setSent rid) rid
            (listUpdate (listUpdate (listUpdate pending pe) { pe with status := .Sending })
              (({ pe with status := .Sending } : PendingEvent).setSent rid)) store).2.1,
          err := none, attempted := true }
      | .connectionError =>
        { pe := { pe with status := .Sending },
          pending := listUpdate (listUpdate pending pe) { pe with status := .Sending },
          store := store, err := some .connection, attempted := true }
      | .homeServerError c =>
        { pe := { pe with status := .Sending },
          pending := listUpdate (listUpdate pending pe) { pe with status := .Sending },
          store := store, err := some (.homeServer c), attempted := true }
      | .otherError =>
        { pe := { pe with status := .Sending },
          pending := listUpdate (listUpdate pending pe) { pe with status := .Sending },
          store := store, err := some .other, attempted := true }) := by
  have hu : pe.needsUpload = false := by simp [PendingEvent.needsUpload, h1]
  have he : pe.needsEncryption = false := by simp [PendingEvent.needsEncryption, h2]
  have hs : pe.needsSending = true := by simp [PendingEvent.needsSending, h3, h4]
  cases ht : transport pe.data.txnId with
  | ok rid => simp [sendEvent, uploadStage, encryptStage, hu, he, hs, ht, persistSendTxn_none_eq]
  | connectionError => simp [sendEvent, uploadStage, encryptStage, hu, he, hs, ht]
  | homeServerError c => simp [sendEvent, uploadStage, encryptStage, hu, he, hs, ht]
  | otherError => simp [sendEvent, uploadStage, encryptStage, hu, he, hs, ht]

theorem stages_txnId (pe : PendingEvent) :
    (encryptStage (uploadStage pe)).data.txnId = pe.data.txnId := by
  unfold encryptStage uploadStage
  split <;> split <;> rfl

theorem stages_remoteId (pe : PendingEvent) :
    (encryptStage (uploadStage pe)).data.remoteId = pe.data.remoteId := by
  unfold encryptStage uploadStage
  split <;> split <;> rfl

theorem stages_aborted (pe : PendingEvent) :
    (encryptStage (uploadStage pe)).aborted = pe.aborted := by
  unfold encryptStage uploadStage
  split <;> split <;> rfl

theorem stages_queueIndex (pe : PendingEvent) :
    (encryptStage (uploadStage pe)).data.queueIndex = pe.data.queueIndex := by
  unfold encryptStage uploadStage
  split <;> split <;> rfl

theorem map_qi_persistSendTxn (failAt : Option Nat) (pe : PendingEvent) (rid : EventId)
    (pending : List PendingEvent) (store : Store) :
    (persistSendTxn failAt pe rid pending store).1.map (fun x => x.data.queueIndex)
      = pending.map (fun x => x.data.queueIndex) := by
  simp only [persistSendTxn]
  by_cases h0 : failAt = some 0
  · rw [if_pos h0]
  · rw [if_neg h0]
    have hq := map_qi_resolve failAt 1 (some pe.data.txnId) rid pending
      (tryUpdateEventWithTxn pe.data store)
    split
    · exact hq
    · exact hq

theorem map_qi_sendEvent (transport : Transport) (pe : PendingEvent)
    (pending : List PendingEvent) (store : Store) :
    (sendEvent transport pe pending store).pending.map (fun x => x.data.queueIndex)
      = pending.map (fun x => x.data.queueIndex) := by
  simp only [sendEvent]
  split
  · split
    · simp only
      rw [map_qi_persistSendTxn, map_queueIndex_listUpdate, map_queueIndex_listUpdate,
        map_queueIndex_listUpdate]
    · simp only
      rw [map_queueIndex_listUpdate, map_queueIndex_listUpdate]
    · simp only
      rw [map_queueIndex_listUpdate, map_queueIndex_listUpdate]
    · simp only
      rw [map_queueIndex_listUpdate, map_queueIndex_listUpdate]
  · simp only
    rw [map_queueIndex_listUpdate]

/-- The queue index of the event object returned by `_sendEvent` is that of
the processed event. -/
theorem sendEvent_pe_queueIndex (transport : Transport) (pe : PendingEvent)
    (pending : List PendingEvent) (store : Store) :
    (sendEvent transport pe pending store).pe.data.queueIndex = pe.data.queueIndex := by
  simp only [sendEvent]
  split
  · split <;> simp only [PendingEvent.setSent] <;> exact stages_queueIndex pe
  · exact stages_queueIndex pe

/-- A `HomeServerError` escaping `_sendEvent` came from the transport. -/
theorem sendEvent_err_homeServer (transport : Transport) (pe : PendingEvent)
    (pending : List PendingEvent) (store : Store) (c : Nat)
    (h : (sendEvent transport pe pending store).err = some (.homeServer c)) :
    transport pe.data.txnId = .homeServerError c := by
  simp only [sendEvent] at h
  rw [← stages_txnId pe]
  split at h
  · split at h
    · next heq =>
      exfalso
      rw [persistSendTxn_none_eq] at h
      simp at h
    · next heq => simp at h
    · next c' heq =>
      simp only at h
      injection h with h
      injection h with h
      rw [heq, h]
    · next heq => simp at h
  · simp at h

/-- An event that already carries its remote id is not transmitted again:
`_sendEvent` attempts no send and raises nothing. -/
theorem sendEvent_remote_not_attempted (transport : Transport) (pe : PendingEvent)
    (pending : List PendingEvent) (store : Store) (rid : EventId)
    (h : pe.data.remoteId = some rid) :
    (sendEvent transport pe pending store).attempted = false ∧
    (sendEvent transport pe pending store).err = none := by
  have hns : (encryptStage (uploadStage pe)).needsSending = false := by
    unfold PendingEvent.needsSending
    rw [stages_remoteId, h]
    rfl
  simp only [sendEvent]
  rw [if_neg (by simp [hns])]
  exact ⟨rfl, rfl⟩

/-- One send-loop iteration under a transport that never reports a permanent
rejection: the collection keeps its queue indexes (no removal), the visit
trace grows by the processed index, and the attempt trace grows by at most
that index. -/
theorem sendLoopStep_no_remove (transport : Transport) (st : LoopState) (pe : PendingEvent)
    (hT : ∀ c, transport pe.data.txnId = .homeServerError c → ¬(c = 400 ∨ c = 403 ∨ c = 404)) :
    (sendLoopStep transport st pe).pending.map (fun x => x.data.queueIndex)
      = st.pending.map (fun x => x.data.queueIndex) ∧
    (sendLoopStep transport st pe).visits = st.visits ++ [pe.data.queueIndex] ∧
    ((sendLoopStep transport st pe).attempts = st.attempts ∨
      (sendLoopStep transport st pe).attempts = st.attempts ++ [pe.data.queueIndex]) := by
  have hmap := map_qi_sendEvent transport pe st.pending st.store
  simp only [sendLoopStep]
  cases herr : (sendEvent transport pe st.pending st.store).err with
  | none =>
    simp only
    refine ⟨hmap, by trivial, ?_⟩
    by_cases ha : (sendEvent transport pe st.pending st.store).attempted = true
    · rw [if_pos ha]; exact Or.inr rfl
    · rw [if_neg ha]; exact Or.inl rfl
  | some e =>
    cases e with
    | connection =>
      simp only
      refine ⟨by rw [map_queueIndex_listUpdate, hmap], by trivial, ?_⟩
      by_cases ha : (sendEvent transport pe st.pending st.store).attempted = true
      · rw [if_pos ha]; exact Or.inr rfl
      · rw [if_neg ha]; exact Or.inl rfl
    | homeServer c =>
      have hcc := hT c (sendEvent_err_homeServer transport pe st.pending st.store c herr)
      simp only
      rw [if_neg hcc]
      refine ⟨by rw [map_queueIndex_listUpdate, hmap], by trivial, ?_⟩
      by_cases ha : (sendEvent transport pe st.pending st.store).attempted = true
      · rw [if_pos ha]; exact Or.inr rfl
      · rw [if_neg ha]; exact Or.inl rfl
    | other =>
      simp only
      refine ⟨by rw [map_queueIndex_listUpdate, hmap], by trivial, ?_⟩
      by_cases ha : (sendEvent transport pe st.pending st.store).attempted = true
      · rw [if_pos ha]; exact Or.inr rfl
      · rw [if_neg ha]; exact Or.inl rfl

/-- A whole send-loop run under a transport that never reports a permanent
rejection: no pending event is removed, the loop visits every event from the
start index onwards exactly once and in collection order, and each event's
transmission is attempted at most at its own visit. -/
theorem sendLoop_no_remove_spec (transport : Transport)
    (hT : ∀ id c, transport id = .homeServerError c → ¬(c = 400 ∨ c = 403 ∨ c = 404)) :
    ∀ (fuel idx : Nat) (st : LoopState),
    st.pending.length ≤ fuel + idx →
    (sendLoopAux transport fuel idx st).pending.map (fun x => x.data.queueIndex)
      = st.pending.map (fun x => x.data.queueIndex) ∧
    (sendLoopAux transport fuel idx st).visits
      = st.visits ++ ((st.pending.drop idx).map (fun x => x.data.queueIndex)) ∧
    ∃ S, (sendLoopAux transport fuel idx st).attempts = st.attempts ++ S ∧
      S.Sublist ((st.pending.drop idx).map (fun x => x.data.queueIndex)) := by
  intro fuel
  induction fuel with
  | zero =>
    intro idx st hlen
    have hdrop : st.pending.drop idx = [] := List.drop_eq_nil_of_le (by omega)
    rw [hdrop]
    exact ⟨rfl, by simp [sendLoopAux], [], by simp [sendLoopAux], List.nil_sublist _⟩
  | succ f ih =>
    intro idx st hlen
    cases hget : st.pending[idx]? with
    | none =>
      have hlen2 : st.pending.length ≤ idx := by
        by_contra hc
        push_neg at hc
        rw [List.getElem?_eq_getElem hc] at hget
        cases hget
      have hdrop : st.pending.drop idx = [] := List.drop_eq_nil_of_le hlen2
      rw [hdrop]
      refine ⟨?_, ?_, [], ?_, List.nil_sublist _⟩ <;> simp [sendLoopAux, hget]
    | some pe =>
      have hlt : idx < st.pending.length := by
        by_contra hc
        push_neg at hc
        rw [List.getElem?_eq_none hc] at hget
        cases hget
      have hdropcons : st.pending.drop idx = pe :: st.pending.drop (idx + 1) := by
        rw [List.drop_eq_getElem_cons hlt]
        have := List.getElem?_eq_getElem hlt
        rw [this] at hget
        injection hget with hget
        rw [hget]
      obtain ⟨hmap, hvis, hatt⟩ := sendLoopStep_no_remove transport st pe (fun c h => hT _ c h)
      have hlen' : (sendLoopStep transport st pe).pending.length ≤ f + (idx + 1) := by
        have hl : (sendLoopStep transport st pe).pending.length = st.pending.length := by
          have := congrArg List.length hmap
          simpa using this
        omega
      obtain ⟨ihmap, ihvis, S, ihatt, ihsub⟩ := ih (idx + 1) (sendLoopStep transport st pe) hlen'
      have hdropmap : ((sendLoopStep transport st pe).pending.drop (idx + 1)).map
            (fun x => x.data.queueIndex)
          = (st.pending.drop (idx + 1)).map (fun x => x.data.queueIndex) := by
        rw [List.map_drop, List.map_drop, hmap]
      have haux : sendLoopAux transport (f + 1) idx st
          = sendLoopAux transport f (idx + 1) (sendLoopStep transport st pe) := by
        simp only [sendLoopAux, hget]
      refine ⟨?_, ?_, ?_⟩
      · rw [haux, ihmap, hmap]
      · rw [haux, ihvis, hvis, hdropmap, hdropcons]
        simp
      · rcases hatt with h | h
        · refine ⟨S, ?_, ?_⟩
          · rw [haux, ihatt, h]
          · rw [hdropcons, List.map_cons]
            exact ihsub.trans (hdropmap ▸ List.sublist_cons_self _ _) |>.trans
              (List.Sublist.refl _)
        · refine ⟨pe.data.queueIndex :: S, ?_, ?_⟩
          · rw [haux, ihatt, h]
            simp
          · rw [hdropcons, List.map_cons]
            exact (hdropmap ▸ ihsub).cons₂ _

/-- A full send-loop run over plain Waiting events when every transmission
fails with a `ConnectionError`: the queue goes offline, the store is
untouched, every event is visited — the loop does not pause at the first
connectivity failure — and every event is put (back) into Waiting. -/
theorem connLoop_spec (B : List PendingEvent) :
    ∀ (A : List PendingEvent) (st : LoopState) (fuel : Nat),
    st.pending = A ++ B →
    B.length ≤ fuel →
    (A ++ B).Pairwise (fun a b => a.data.queueIndex ≠ b.data.queueIndex) →
    (∀ x ∈ B, x.data.needsUpload = false ∧ x.data.needsEncryption = false ∧
      x.data.remoteId = none ∧ x.aborted = false) →
    sendLoopAux (fun _ => SendResult.connectionError) fuel A.length st =
      { pending := A ++ B.map PendingEvent.setWaiting,
        store := st.store,
        offline := st.offline || !B.isEmpty,
        visits := st.visits ++ B.map (fun x => x.data.queueIndex),
        attempts := st.attempts ++ B.map (fun x => x.data.queueIndex) } := by
  induction B with
  | nil =>
    intro A st fuel hpend hfuel hdist hB
    have hA : A = st.pending := by rw [hpend, List.append_nil]
    have hnone : st.pending[A.length]? = none := by
      rw [hpend]
      simp
    cases fuel with
    | zero =>
      show st = _
      rw [hA]
      simp only [List.map_nil, List.append_nil, List.isEmpty_nil, Bool.not_true, Bool.or_false]
    | succ f =>
      simp only [sendLoopAux, hnone]
      rw [hA]
      simp only [List.map_nil, List.append_nil, List.isEmpty_nil, Bool.not_true, Bool.or_false]
  | cons pe B' ih =>
    intro A st fuel hpend hfuel hdist hB
    cases fuel with
    | zero => exact absurd hfuel (by simp)
    | succ f =>
      have hget : st.pending[A.length]? = some pe := by
        rw [hpend]
        exact getElem?_append_length A B' pe
      obtain ⟨hu, he, hr, ha⟩ := hB pe (List.mem_cons_self _ _)
      obtain ⟨hAk, hBk⟩ := pairwise_append_middle A B' pe hdist
      have hstep : sendLoopStep (fun _ => SendResult.connectionError) st pe =
          { pending := A ++ (⟨pe.data, .Waiting, pe.aborted⟩ : PendingEvent) :: B',
            store := st.store, offline := true,
            visits := st.visits ++ [pe.data.queueIndex],
            attempts := st.attempts ++ [pe.data.queueIndex] } := by
        simp only [sendLoopStep,
          sendEvent_plain (fun _ => SendResult.connectionError) pe st.pending st.store hu he hr ha]
        simp only [PendingEvent.setWaiting]
        rw [hpend,
          listUpdate_listUpdate (A ++ pe :: B') pe
            (⟨pe.data, .Sending, pe.aborted⟩ : PendingEvent) rfl,
          listUpdate_listUpdate (A ++ pe :: B')
            (⟨pe.data, .Sending, pe.aborted⟩ : PendingEvent)
            (⟨pe.data, .Waiting, pe.aborted⟩ : PendingEvent) rfl,
          listUpdate_middle A B' pe (⟨pe.data, .Waiting, pe.aborted⟩ : PendingEvent) rfl hAk hBk,
          if_pos trivial]
      have hih := ih (A ++ [(⟨pe.data, .Waiting, pe.aborted⟩ : PendingEvent)])
        (sendLoopStep (fun _ => SendResult.connectionError) st pe) f
        (by rw [hstep]; simp)
        (by simpa using hfuel)
        (by
          apply pairwise_qi_of_map_eq (A ++ pe :: B')
          · simp
          · exact hdist)
        (fun x hx => hB x (List.mem_cons_of_mem _ hx))
      have haux : sendLoopAux (fun _ => SendResult.connectionError) (f + 1) A.length st
          = sendLoopAux (fun _ => SendResult.connectionError) f (A.length + 1)
              (sendLoopStep (fun _ => SendResult.connectionError) st pe) := by
        simp only [sendLoopAux, hget]
      rw [haux]
      have hlen : (A ++ [(⟨pe.data, .Waiting, pe.aborted⟩ : PendingEvent)]).length
          = A.length + 1 := by simp
      rw [← hlen, hih, hstep]
      simp [List.append_assoc, PendingEvent.setWaiting]

/-! ## Claim theorems: C3 -/

/-- Counterexample to C3 as stated: with two Waiting events and a transport
that is offline, the first transmission's connectivity failure does not pause
the loop — the second event's transmission is attempted as well. -/
theorem connLoop_no_pause_counterexample :
    (runSendLoop (fun _ => SendResult.connectionError) [samplePE 1 0, samplePE 2 1]
        [(samplePE 1 0).data, (samplePE 2 1).data] false).attempts = [1, 2] ∧
    (runSendLoop (fun _ => SendResult.connectionError) [samplePE 1 0, samplePE 2 1]
        [(samplePE 1 0).data, (samplePE 2 1).data] false).offline = true := by
  exact ⟨rfl, rfl⟩

/-- C3 (amended): a connectivity failure sets the offline flag, puts the
failed event back into Waiting and removes nothing from queue or store; the
loop does not pause but goes on to attempt every remaining event (each
failing the same way and staying Waiting); a later `resumeSending` clears
the offline flag and starts a loop when none is running, and a restarted
loop visits every event again while never re-transmitting an event that
already carries a `remoteId`. -/
theorem connectivity_failure_keeps_queue (pending : List PendingEvent) (store : Store)
    (offline : Bool)
    (hdist : pending.Pairwise (fun a b => a.data.queueIndex ≠ b.data.queueIndex))
    (hB : ∀ x ∈ pending, x.data.needsUpload = false ∧ x.data.needsEncryption = false ∧
      x.data.remoteId = none ∧ x.aborted = false)
    (hne : pending ≠ []) :
    (runSendLoop (fun _ => SendResult.connectionError) pending store offline).pending
        = pending.map PendingEvent.setWaiting ∧
    (runSendLoop (fun _ => SendResult.connectionError) pending store offline).store = store ∧
    (runSendLoop (fun _ => SendResult.connectionError) pending store offline).offline = true ∧
    (runSendLoop (fun _ => SendResult.connectionError) pending store offline).attempts
        = pending.map (fun x => x.data.queueIndex) ∧
    (∀ q : QState, q.pending ≠ [] → q.isSending = false →
      resumeSending q = ({ q with offline := false, isSending := true }, true)) ∧
    (∀ (tr : Transport),
      (∀ id c, tr id = .homeServerError c → ¬(c = 400 ∨ c = 403 ∨ c = 404)) →
      (runSendLoop tr pending store false).visits
        = pending.map (fun x => x.data.queueIndex)) ∧
    (∀ (tr : Transport) (pe : PendingEvent) (pending' : List PendingEvent)
        (store' : Store) (rid : EventId), pe.data.remoteId = some rid →
      (sendEvent tr pe pending' store').attempted = false) := by
  have h := connLoop_spec pending [] ⟨pending, store, offline, [], []⟩ pending.length rfl
    (Nat.le_refl _) hdist hB
  have hrun : runSendLoop (fun _ => SendResult.connectionError) pending store offline =
      { pending := [] ++ pending.map PendingEvent.setWaiting,
        store := store, offline := offline || !pending.isEmpty,
        visits := [] ++ pending.map (fun x => x.data.queueIndex),
        attempts := [] ++ pending.map (fun x => x.data.queueIndex) } := by
    unfold runSendLoop
    exact h
  have hempty : pending.isEmpty = false := by
    cases pending with
    | nil => exact absurd rfl hne
    | cons a l => rfl
  refine ⟨?_, ?_, ?_, ?_, ?_, ?_, ?_⟩
  · rw [hrun]
    simp
  · rw [hrun]
  · rw [hrun]
    simp [hempty]
  · rw [hrun]
    simp
  · intro q hq hs
    unfold resumeSending
    rw [if_pos ⟨fun hc => hq (List.length_eq_zero.mp hc), by rw [hs]; rfl⟩]
  · intro tr htr
    have hs := (sendLoop_no_remove_spec tr htr pending.length 0
      ⟨pending, store, false, [], []⟩ (by simp)).2.1
    unfold runSendLoop
    simpa using hs
  · intro tr pe pending' store' rid hrid
    exact (sendEvent_remote_not_attempted tr pe pending' store' rid hrid).1

/-- Witness for C3's amended theorem at two concrete Waiting events. -/
theorem connectivity_failure_keeps_queue_witness :
    (runSendLoop (fun _ => SendResult.connectionError) [samplePE 3 0, samplePE 4 1]
        [(samplePE 3 0).data] false).pending
      = [(samplePE 3 0).setWaiting, (samplePE 4 1).setWaiting] :=
  (connectivity_failure_keeps_queue [samplePE 3 0, samplePE 4 1] [(samplePE 3 0).data] false
    (by decide) (by decide) (by decide)).1

/-! ## Claim theorems: C2 -/

/-- A sequence of plain enqueue operations on one queue, collecting the
assigned queue indexes in order. -/
def enqueueSeq (q : QState) : List (String × String) → QState × List Nat
  | [] => (q, [])
  | (t, c) :: rest =>
    match enqueueEventCore q t c none none false false with
    | (q', some pe, _) =>
      ((enqueueSeq q' rest).1, pe.data.queueIndex :: (enqueueSeq q' rest).2)
    | (q', none, _) => enqueueSeq q' rest

theorem get?_some_mem (s : Store) (roomId : String) (qi : Nat) (r : PendingEventData)
    (h : Store.get? s roomId qi = some r) :
    r ∈ s ∧ r.roomId = roomId ∧ r.queueIndex = qi := by
  refine ⟨List.mem_of_find?_eq_some h, ?_⟩
  have hp := List.find?_some h
  rw [key_beq] at hp
  exact of_decide_eq_true hp

/-- An enqueue with a healthy store transaction always succeeds: the freshly
allocated key cannot collide with an existing record. -/
theorem enqueueEventCore_success (q : QState) (t c : String) :
    ∃ q' pe started,
      enqueueEventCore q t c none none false false = (q', some pe, started) := by
  unfold enqueueEventCore createAndStoreEvent
  rw [if_neg (by simp)]
  have hfree : Store.existsKey q.store q.roomId (Store.getMaxQueueIndex q.store q.roomId + 1)
      = false := by
    by_contra hc
    rw [Bool.not_eq_false] at hc
    unfold Store.existsKey at hc
    rcases Option.isSome_iff_exists.mp hc with ⟨r, hr⟩
    obtain ⟨hmem, hroom, hqi⟩ := get?_some_mem _ _ _ r hr
    have := le_getMaxQueueIndex q.store q.roomId r hmem hroom
    omega
  simp only [Store.add, hfree, Bool.false_eq_true, if_false]
  exact ⟨_, _, _, rfl⟩

/-- The state shape after a successful enqueue. -/
theorem enqueueEventCore_ok (q : QState) (t c : String) (q' : QState) (pe : PendingEvent)
    (started : Bool)
    (henq : enqueueEventCore q t c none none false false = (q', some pe, started)) :
    q'.roomId = q.roomId ∧ q'.store = q.store ++ [pe.data] ∧
    pe.data.roomId = q.roomId ∧
    pe.data.queueIndex = Store.getMaxQueueIndex q.store q.roomId + 1 := by
  unfold enqueueEventCore at henq
  cases hc : createAndStoreEvent q t c none none false false with
  | error u => rw [hc] at henq; cases henq
  | ok v =>
    obtain ⟨pe0, store0⟩ := v
    rw [hc] at henq
    injection henq with hq' hrest
    injection hrest with hpe hstarted
    injection hpe with hpe
    cases hpe
    obtain ⟨hstore, -, hroom, hqi, -, -, -⟩ :=
      createAndStoreEvent_ok q t c none none false false pe store0 hc
    exact ⟨by rw [← hq'], by rw [← hq', hstore], hroom, hqi⟩

theorem getMaxQueueIndex_append (s : Store) (d : PendingEventData) (roomId : String)
    (h : d.roomId = roomId) :
    Store.getMaxQueueIndex (s ++ [d]) roomId
      = max (Store.getMaxQueueIndex s roomId) d.queueIndex := by
  unfold Store.getMaxQueueIndex
  rw [List.filter_append, List.foldl_append]
  have : List.filter (fun r => r.roomId == roomId) [d] = [d] := by simp [h]
  rw [this]
  rfl

/-- Every index assigned by a sequence of enqueues exceeds the room's
maximum at the start of the sequence. -/
theorem enqueueSeq_lb (payloads : List (String × String)) :
    ∀ (q : QState), ∀ k ∈ (enqueueSeq q payloads).2,
      Store.getMaxQueueIndex q.store q.roomId < k := by
  induction payloads with
  | nil => intro q k hk; cases hk
  | cons p rest ih =>
    intro q k hk
    obtain ⟨t, c⟩ := p
    obtain ⟨q', pe, started, henq⟩ := enqueueEventCore_success q t c
    obtain ⟨hroom', hstore', hperoom, hqi⟩ := enqueueEventCore_ok q t c q' pe started henq
    rw [enqueueSeq, henq] at hk
    have hmax' : Store.getMaxQueueIndex q'.store q'.roomId
        = Store.getMaxQueueIndex q.store q.roomId + 1 := by
      rw [hstore', hroom', getMaxQueueIndex_append q.store pe.data q.roomId hperoom, hqi]
      omega
    rcases List.mem_cons.mp hk with hk | hk
    · rw [hk, hqi]
      omega
    · have := ih q' k hk
      omega

/-- Queue indexes assigned by a sequence of enqueues are strictly
increasing. -/
theorem enqueueSeq_strict_mono (payloads : List (String × String)) :
    ∀ (q : QState), (enqueueSeq q payloads).2.Pairwise (· < ·) := by
  induction payloads with
  | nil => intro q; exact List.Pairwise.nil
  | cons p rest ih =>
    intro q
    obtain ⟨t, c⟩ := p
    obtain ⟨q', pe, started, henq⟩ := enqueueEventCore_success q t c
    obtain ⟨hroom', hstore', hperoom, hqi⟩ := enqueueEventCore_ok q t c q' pe started henq
    rw [enqueueSeq, henq]
    refine List.pairwise_cons.mpr ⟨?_, ih q'⟩
    intro k hk
    have hlb := enqueueSeq_lb rest q' k hk
    have hmax' : Store.getMaxQueueIndex q'.store q'.roomId
        = Store.getMaxQueueIndex q.store q.roomId + 1 := by
      rw [hstore', hroom', getMaxQueueIndex_append q.store pe.data q.roomId hperoom, hqi]
      omega
    omega

/-- C2: each enqueue allocates `queueIndex = max(existing in room) + 1`
(1 on an empty store), strictly above every record of the room; across any
sequence of enqueues the assigned indexes are strictly increasing; and the
send loop visits the pending events of a queue sorted by `queueIndex` in
ascending order. -/
theorem enqueue_order_discipline (q : QState) (t c : String) :
    (∀ q' pe started,
      enqueueEventCore q t c none none false false = (q', some pe, started) →
      pe.data.queueIndex = Store.getMaxQueueIndex q.store q.roomId + 1 ∧
      ∀ r ∈ q.store, r.roomId = q.roomId → r.queueIndex < pe.data.queueIndex) ∧
    (∀ (payloads : List (String × String)) (q0 : QState),
      (enqueueSeq q0 payloads).2.Pairwise (· < ·)) ∧
    (∀ (tr : Transport) (pending : List PendingEvent) (store : Store) (offline : Bool),
      (∀ id c', tr id = .homeServerError c' → ¬(c' = 400 ∨ c' = 403 ∨ c' = 404)) →
      pending.Pairwise (fun a b => a.data.queueIndex < b.data.queueIndex) →
      (runSendLoop tr pending store offline).visits
          = pending.map (fun x => x.data.queueIndex) ∧
      (runSendLoop tr pending store offline).visits.Pairwise (· < ·)) := by
  refine ⟨?_, fun payloads q0 => enqueueSeq_strict_mono payloads q0, ?_⟩
  · intro q' pe started henq
    obtain ⟨-, -, -, hqi⟩ := enqueueEventCore_ok q t c q' pe started henq
    refine ⟨hqi, fun r hr hroom => ?_⟩
    have := le_getMaxQueueIndex q.store q.roomId r hr hroom
    omega
  · intro tr pending store offline htr hsorted
    have hs := (sendLoop_no_remove_spec tr htr pending.length 0
      ⟨pending, store, offline, [], []⟩ (by simp)).2.1
    have hvis : (runSendLoop tr pending store offline).visits
        = pending.map (fun x => x.data.queueIndex) := by
      unfold runSendLoop
      simpa using hs
    exact ⟨hvis, hvis ▸ List.pairwise_map.mpr hsorted⟩

/-- Witness for C2: two enqueues in an empty room receive indexes 1 then 2,
and an all-success loop visits them in that order. -/
theorem enqueue_order_discipline_witness :
    (runSendLoop (fun _ => SendResult.ok (.remote 7)) [samplePE 1 0, samplePE 2 1]
        [(samplePE 1 0).data, (samplePE 2 1).data] false).visits = [1, 2] := by
  have h := (enqueue_order_discipline emptyQ "m.room.message" "x").2.2
    (fun _ => SendResult.ok (.remote 7)) [samplePE 1 0, samplePE 2 1]
    [(samplePE 1 0).data, (samplePE 2 1).data] false
    (fun id c' hch => by cases hch) (by decide)
  exact h.1

/-! ## Claim theorems: C4 -/

theorem mem_listUpdate_self (l : List PendingEvent) (pe pe' : PendingEvent)
    (hmem : pe ∈ l) (hqi : pe.data.queueIndex = pe'.data.queueIndex) :
    pe' ∈ listUpdate l pe' := by
  unfold listUpdate
  refine List.mem_map.mpr ⟨pe, hmem, ?_⟩
  rw [if_pos hqi]

theorem mem_foldl_sortedInsert (l : List PendingEvent) :
    ∀ (acc : List PendingEvent) (x : PendingEvent),
    x ∈ l.foldl sortedInsert acc → x ∈ acc ∨ x ∈ l := by
  induction l with
  | nil => intro acc x h; exact Or.inl h
  | cons y ys ih =>
    intro acc x h
    rcases ih (sortedInsert acc y) x h with h1 | h1
    · rcases mem_of_mem_sortedInsert acc y x h1 with h2 | h2
      · exact Or.inr (h2 ▸ List.mem_cons_self _ _)
      · exact Or.inl h2
    · exact Or.inr (List.mem_cons_of_mem _ h1)

/-- An event recovered at restart comes from a record of the room. -/
theorem mem_loadQueue (store : Store) (roomId : String) (x : PendingEvent)
    (h : x ∈ loadQueue store roomId) :
    x.data ∈ store ∧ x.data.roomId = roomId := by
  unfold loadQueue at h
  rcases mem_foldl_sortedInsert _ _ _ h with h1 | h1
  · cases h1
  · rcases List.mem_map.mp h1 with ⟨d, hd, hx⟩
    rcases List.mem_filter.mp hd with ⟨hmem, hroom⟩
    refine ⟨?_, ?_⟩
    · rw [← hx]; exact hmem
    · rw [← hx]
      simpa using hroom

theorem not_mem_key_of_get?_none (s : Store) (roomId : String) (qi : Nat)
    (h : Store.get? s roomId qi = none) :
    ∀ r ∈ s, ¬(r.roomId = roomId ∧ r.queueIndex = qi) := by
  intro r hr hc
  have := List.find?_eq_none.mp h r hr
  rw [key_beq] at this
  exact this (decide_eq_true hc)

/-- C4: a failure that is not a connectivity error is classified by the send
loop: a `HomeServerError` with status 400, 403 or 404 aborts the event — its
record disappears from the durable store and the event from the collection,
and a queue restarted from the store does not recover it; every other
failure parks the event in the Error status, keeps it in the queue with its
store record untouched, and one loop run attempts its transmission at most
once (no automatic retry). -/
theorem sendLoop_error_classification (transport : Transport) (st : LoopState)
    (pe : PendingEvent) (c : Nat)
    (hu : pe.data.needsUpload = false) (he : pe.data.needsEncryption = false)
    (hr : pe.data.remoteId = none) (ha : pe.aborted = false)
    (hmem : pe ∈ st.pending)
    (hdist : st.pending.Pairwise (fun a b => a.data.queueIndex ≠ b.data.queueIndex)) :
    (transport pe.data.txnId = .homeServerError c → (c = 400 ∨ c = 403 ∨ c = 404) →
      (∀ x ∈ (sendLoopStep transport st pe).pending,
        x.data.queueIndex ≠ pe.data.queueIndex) ∧
      Store.get? (sendLoopStep transport st pe).store
          pe.data.roomId pe.data.queueIndex = none ∧
      (∀ x ∈ loadQueue (sendLoopStep transport st pe).store pe.data.roomId,
        x.data.queueIndex ≠ pe.data.queueIndex)) ∧
    (transport pe.data.txnId = .homeServerError c → ¬(c = 400 ∨ c = 403 ∨ c = 404) →
      (∃ x ∈ (sendLoopStep transport st pe).pending,
        x.data.queueIndex = pe.data.queueIndex ∧ x.status = .SendError) ∧
      (sendLoopStep transport st pe).store = st.store) ∧
    (transport pe.data.txnId = .otherError →
      (∃ x ∈ (sendLoopStep transport st pe).pending,
        x.data.queueIndex = pe.data.queueIndex ∧ x.status = .SendError) ∧
      (sendLoopStep transport st pe).store = st.store) ∧
    ((∀ id c', transport id = .homeServerError c' → ¬(c' = 400 ∨ c' = 403 ∨ c' = 404)) →
      ((runSendLoop transport st.pending st.store st.offline).attempts).count
          pe.data.queueIndex ≤ 1) := by
  have hmemS : (⟨pe.data, .Sending, pe.aborted⟩ : PendingEvent)
      ∈ listUpdate (listUpdate st.pending pe) (⟨pe.data, .Sending, pe.aborted⟩ : PendingEvent) :=
    mem_listUpdate_self _ pe _ (mem_listUpdate_self _ pe pe hmem rfl) rfl
  have hdistU : (listUpdate (listUpdate st.pending pe)
        (⟨pe.data, .Sending, pe.aborted⟩ : PendingEvent)).Pairwise
      (fun a b => a.data.queueIndex ≠ b.data.queueIndex) := by
    apply pairwise_qi_of_map_eq st.pending
    · rw [map_queueIndex_listUpdate, map_queueIndex_listUpdate]
    · exact hdist
  refine ⟨?_, ?_, ?_, ?_⟩
  · intro ht hc
    simp only [sendLoopStep,
      sendEvent_plain transport pe st.pending st.store hu he hr ha, ht]
    rw [if_pos hc]
    rcases removeEvent_eq_of_mem
        (listUpdate (listUpdate st.pending pe) (⟨pe.data, .Sending, pe.aborted⟩ : PendingEvent))
        st.store (⟨pe.data, .Sending, pe.aborted⟩ : PendingEvent) hmemS with ⟨i, hi, hre⟩
    rw [hre]
    refine ⟨?_, ?_, ?_⟩
    · intro x hx
      exact eraseIdx_findIndex_qi _ pe.data.queueIndex hdistU i hi x hx
    · exact get?_removeKey_self st.store pe.data.roomId pe.data.queueIndex
    · intro x hx
      obtain ⟨hxmem, hxroom⟩ := mem_loadQueue _ _ x hx
      intro hxqi
      exact not_mem_key_of_get?_none _ _ _
        (get?_removeKey_self st.store pe.data.roomId pe.data.queueIndex)
        x.data hxmem ⟨hxroom, hxqi⟩
  · intro ht hc
    simp only [sendLoopStep,
      sendEvent_plain transport pe st.pending st.store hu he hr ha, ht]
    rw [if_neg hc]
    refine ⟨⟨⟨pe.data, .SendError, pe.aborted⟩, ?_, by trivial, by trivial⟩, by trivial⟩
    exact mem_listUpdate_self _ (⟨pe.data, .Sending, pe.aborted⟩ : PendingEvent) _ hmemS rfl
  · intro ht
    simp only [sendLoopStep,
      sendEvent_plain transport pe st.pending st.store hu he hr ha, ht]
    refine ⟨⟨⟨pe.data, .SendError, pe.aborted⟩, ?_, by trivial, by trivial⟩, by trivial⟩
    exact mem_listUpdate_self _ (⟨pe.data, .Sending, pe.aborted⟩ : PendingEvent) _ hmemS rfl
  · intro htr
    obtain ⟨-, -, S, hatt, hsub⟩ := sendLoop_no_remove_spec transport htr
      st.pending.length 0 ⟨st.pending, st.store, st.offline, [], []⟩ (by simp)
    have hrun : (runSendLoop transport st.pending st.store st.offline).attempts = S := by
      unfold runSendLoop
      simpa using hatt
    rw [hrun]
    have hcount := hsub.count_le pe.data.queueIndex
    have hnodup : (st.pending.map (fun x => x.data.queueIndex)).Nodup :=
      List.pairwise_map.mpr hdist
    exact le_trans hcount (List.nodup_iff_count_le_one.mp hnodup _)

/-- Witness for C4: a 404 rejection removes the event's durable record. -/
theorem sendLoop_error_classification_witness :
    Store.get? (sendLoopStep (fun _ => SendResult.homeServerError 404)
        ⟨[samplePE 1 0], [(samplePE 1 0).data], false, [], []⟩ (samplePE 1 0)).store "r1" 1
      = none := by
  have h := sendLoop_error_classification (fun _ => SendResult.homeServerError 404)
    ⟨[samplePE 1 0], [(samplePE 1 0).data], false, [], []⟩ (samplePE 1 0) 404
    (by decide) (by decide) (by decide) (by decide) (by decide) (by decide)
  exact (h.1 rfl (by decide)).2.1

end SendQueueModel
